import Mathlib

/-!
# Verification of the competitive-intel-tool data pipeline

A shallow embedding of the competitor-discovery / content-extraction /
analysis pipeline of the `competitive-intel-tool` repository
(`competitive_research.py` and its earlier revision `main.py`), together
with theorems settling the testable properties stated in the
specification.

Network effects are modelled by passing an explicit fetcher
`String → FetchOutcome`; parsed HTML pages are modelled by a `Soup`
record exposing exactly the query operations the code uses
(`select_one` text lookup, the `<title>` text, and the texts/elements of
the class-pattern `find_all` scans).  Python strings are modelled as
`String`/`List Char` with explicit models of the `str` methods the code
calls (`replace`, `split`, `strip`, `lower`, `title`, `in`).
-/

/- ## Models of the Python `str` methods used by the code -/

/-- Python `str.lower` restricted to ASCII (all characters the pipeline
manipulates are ASCII; Unicode case-folding is out of scope). -/
def pyToLower (c : Char) : Char :=
  match c with
  | 'A' => 'a' | 'B' => 'b' | 'C' => 'c' | 'D' => 'd' | 'E' => 'e'
  | 'F' => 'f' | 'G' => 'g' | 'H' => 'h' | 'I' => 'i' | 'J' => 'j'
  | 'K' => 'k' | 'L' => 'l' | 'M' => 'm' | 'N' => 'n' | 'O' => 'o'
  | 'P' => 'p' | 'Q' => 'q' | 'R' => 'r' | 'S' => 's' | 'T' => 't'
  | 'U' => 'u' | 'V' => 'v' | 'W' => 'w' | 'X' => 'x' | 'Y' => 'y'
  | 'Z' => 'z'
  | c => c

/-- Python `str.upper` restricted to ASCII. -/
def pyToUpper (c : Char) : Char :=
  match c with
  | 'a' => 'A' | 'b' => 'B' | 'c' => 'C' | 'd' => 'D' | 'e' => 'E'
  | 'f' => 'F' | 'g' => 'G' | 'h' => 'H' | 'i' => 'I' | 'j' => 'J'
  | 'k' => 'K' | 'l' => 'L' | 'm' => 'M' | 'n' => 'N' | 'o' => 'O'
  | 'p' => 'P' | 'q' => 'Q' | 'r' => 'R' | 's' => 'S' | 't' => 'T'
  | 'u' => 'U' | 'v' => 'V' | 'w' => 'W' | 'x' => 'X' | 'y' => 'Y'
  | 'z' => 'Z'
  | c => c

/-- A cased character in the ASCII fragment (`str.title` word logic). -/
def pyIsCased (c : Char) : Bool :=
  ('a' ≤ c && c ≤ 'z') || ('A' ≤ c && c ≤ 'Z')

/-- One character of Python `str.title`: letters following an uncased
character are uppercased, other letters lowercased. -/
def pyTitleChar (prevCased : Bool) (c : Char) : Char :=
  if pyIsCased c then (if prevCased then pyToLower c else pyToUpper c) else c

/-- Python `str.title` on a character list. -/
def pyTitleAux : Bool → List Char → List Char
  | _, [] => []
  | prev, c :: cs => pyTitleChar prev c :: pyTitleAux (pyIsCased c) cs

/-- Python `str.lower` on a `String`. -/
def pyLower (s : String) : String :=
  String.mk (s.data.map pyToLower)

/-- Python `str.title` on a `String`. -/
def pyTitle (s : String) : String :=
  String.mk (pyTitleAux false s.data)

/-- One pass of Python `str.replace`: scan left to right, replacing
non-overlapping occurrences of `pat` with `rep`.  Fuel-indexed so the
definition is structural (hence kernel-reducible); `fuel ≥ s.length`
always suffices. -/
def replaceFuel (pat rep : List Char) : Nat → List Char → List Char
  | _, [] => []
  | 0, s => s
  | fuel + 1, c :: cs =>
    if pat.isPrefixOf (c :: cs) && !pat.isEmpty then
      rep ++ replaceFuel pat rep fuel ((c :: cs).drop pat.length)
    else
      c :: replaceFuel pat rep fuel cs

/-- Python `str.replace` on character lists. -/
def replaceAll (s pat rep : List Char) : List Char :=
  replaceFuel pat rep s.length s

/-- Python `str.replace` on `String`s. -/
def pyReplace (s pat rep : String) : String :=
  String.mk (replaceAll s.data pat.data rep.data)

/-- Python `str.strip` (no arguments): drop leading and trailing
whitespace. -/
def pyStrip (s : List Char) : List Char :=
  ((s.dropWhile Char.isWhitespace).reverse.dropWhile Char.isWhitespace).reverse

/-- Python `sub in s` substring test (`listContainsSub needle hay`). -/
def listContainsSub (needle : List Char) : List Char → Bool
  | [] => needle.isEmpty
  | c :: cs => needle.isPrefixOf (c :: cs) || listContainsSub needle cs

/-- Python `needle in hay` on `String`s. -/
def strContains (hay needle : String) : Bool :=
  listContainsSub needle.data hay.data

/-- Helper for Python `str.split()` (no separator): accumulates the
current word (reversed) while scanning. -/
def splitWordsAux : List Char → List Char → List (List Char)
  | [], cur => if cur.isEmpty then [] else [cur.reverse]
  | c :: cs, cur =>
    if c.isWhitespace then
      (if cur.isEmpty then splitWordsAux cs [] else cur.reverse :: splitWordsAux cs [])
    else
      splitWordsAux cs (c :: cur)

/-- Python `str.split()` without arguments: maximal runs of
non-whitespace characters. -/
def pySplitWords (s : List Char) : List (List Char) :=
  splitWordsAux s []

/-- Python `str.split(sep)` for a non-empty separator, fuel-indexed for
structural recursion; `fuel ≥ s.length` always suffices. -/
def splitOnFuel (sep : List Char) : Nat → List Char → List (List Char)
  | _, [] => [[]]
  | 0, s => [s]
  | fuel + 1, c :: cs =>
    if sep.isPrefixOf (c :: cs) && !sep.isEmpty then
      [] :: splitOnFuel sep fuel ((c :: cs).drop sep.length)
    else
      match splitOnFuel sep fuel cs with
      | [] => [[c]]
      | t :: ts => (c :: t) :: ts

/-- Python `str.split(sep)` on character lists. -/
def pySplitOn (s sep : List Char) : List (List Char) :=
  splitOnFuel sep s.length s

/-- Python `sep.join(xs)`. -/
def pyJoin (sep : String) : List String → String
  | [] => ""
  | [s] => s
  | s :: ss => s ++ sep ++ pyJoin sep ss

/-- `needle` occurs as a contiguous substring of `hay` (specification
predicate used to state containment facts about produced strings). -/
def occursIn (needle hay : List Char) : Prop :=
  ∃ pre post, hay = pre ++ needle ++ post

/- ## Scraper data model (`competitive_research.py` lines 305-479; the
scraping functions in `main.py` lines 294-449 are textually identical) -/

/-- An HTML element as the pricing scan uses it: `select_one(sel)`
followed by `get_text(strip=True)`.  `selectOne sel = none` models "no
descendant matches `sel`"; `some t` models a matching descendant whose
stripped text is `t` (possibly empty). -/
structure Element where
  selectOne : String → Option String

/-- A parsed HTML document, exposing exactly the queries the scraper
performs.  `titleText` is `soup.find('title').text` (unstripped);
`selectOne` is as in `Element`; `featureClassTexts` are the stripped
texts, in document order, of `find_all(['li','div']/'div','li'],
class_=re.compile(r'feature|benefit|capability'))` (the homepage and
features-page scans use the same tag set and the same regex language, so
they see the same element list); `pricingClassElems` are the elements of
`find_all(['div','tr'], class_=re.compile(r'pricing|plan|tier'))`. -/
structure Soup where
  titleText : Option String
  selectOne : String → Option String
  featureClassTexts : List String
  pricingClassElems : List Element

/-- Outcome of one `requests.get` + `BeautifulSoup` parse.  `exn` models
a raised exception (timeout, connection error); `ok status soup` models
any HTTP response — `requests.get` does not raise on 4xx/5xx statuses
(the code never calls `raise_for_status`), so an error page still
parses to a soup. -/
inductive FetchOutcome where
  | exn (msg : String)
  | ok (status : Nat) (soup : Soup)

/-- The network, as a map from URL to fetch outcome. -/
def Fetcher := String → FetchOutcome

/-- `extract_text_by_selectors`: first selector whose element exists and
has non-empty stripped text wins; otherwise the empty string. -/
def extract_text_by_selectors (soup : Soup) : List String → String
  | [] => ""
  | sel :: rest =>
    match soup.selectOne sel with
    | some t => if t ≠ "" then t else extract_text_by_selectors soup rest
    | none => extract_text_by_selectors soup rest

/-- `extract_features_from_homepage`: first 10 feature-class elements,
keeping non-empty texts shorter than 100 characters. -/
def extract_features_from_homepage (soup : Soup) : List String :=
  (soup.featureClassTexts.take 10).filter (fun t => t ≠ "" && t.length < 100)

/-- `HomepageContent` record (`extract_homepage_content`'s result). -/
structure HomepageContent where
  title : String
  headline : String
  subheadline : String
  description : String
  features : List String
deriving DecidableEq

/-- `extract_homepage_content`. -/
def extract_homepage_content (soup : Soup) : HomepageContent where
  title := soup.titleText.getD ""
  headline := extract_text_by_selectors soup ["h1", ".hero-title", ".main-headline"]
  subheadline := extract_text_by_selectors soup ["h2", ".hero-subtitle", ".main-subtitle"]
  description := extract_text_by_selectors soup ["p", ".description", ".intro"]
  features := extract_features_from_homepage soup

/-- A pricing tier `{'name': ..., 'price': ...}`. -/
structure PricingTier where
  name : String
  price : String
deriving DecidableEq

/-- `extract_tier_name`: the stripped text of the first name selector
that has an element — even if that text is empty. -/
def extract_tier_name (e : Element) : String :=
  match e.selectOne ".tier-name" with
  | some t => t
  | none =>
    match e.selectOne ".plan-name" with
    | some t => t
    | none =>
      match e.selectOne "h3" with
      | some t => t
      | none =>
        match e.selectOne "h4" with
        | some t => t
        | none => ""

/-- `extract_tier_price`: the stripped text of the first price selector
that has an element — even if that text is empty. -/
def extract_tier_price (e : Element) : String :=
  match e.selectOne ".price" with
  | some t => t
  | none =>
    match e.selectOne ".cost" with
    | some t => t
    | none =>
      match e.selectOne ".amount" with
      | some t => t
      | none => ""

/-- The tier one pricing-class element contributes: kept only when both
the extracted name and the extracted price are non-empty (the
`if tier_name and tier_price` guard). -/
def tierOfElement (e : Element) : Option PricingTier :=
  let n := extract_tier_name e
  let p := extract_tier_price e
  if n ≠ "" ∧ p ≠ "" then some ⟨n, p⟩ else none

/-- `extract_pricing_from_page`: `None` when no element yields a tier. -/
def extract_pricing_from_page (soup : Soup) : Option (List PricingTier) :=
  let tiers := soup.pricingClassElems.filterMap tierOfElement
  if tiers.isEmpty then none else some tiers

/-- `extract_features_from_page`: texts shorter than 150 characters,
capped at 20; `None` when nothing matched. -/
def extract_features_from_page (soup : Soup) : Option (List String) :=
  let features := soup.featureClassTexts.filter (fun t => t ≠ "" && t.length < 150)
  if features.isEmpty then none else some (features.take 20)

/-- `AboutContent` record. -/
structure AboutContent where
  description : String
  mission : String
  team_info : String
deriving DecidableEq

/-- `extract_about_content`. -/
def extract_about_content (soup : Soup) : AboutContent where
  description := extract_text_by_selectors soup [".about-text", ".company-description", "p"]
  mission := extract_text_by_selectors soup [".mission", ".vision"]
  team_info := extract_text_by_selectors soup [".team", ".leadership"]

/-- The candidate pricing sub-page URLs. -/
def pricingUrls (url : String) : List String :=
  [url ++ "/pricing", url ++ "/plans", url ++ "/price"]

/-- The candidate features sub-page URLs. -/
def featureUrls (url : String) : List String :=
  [url ++ "/features", url ++ "/products", url ++ "/solutions"]

/-- The `for candidate_url in urls: try fetch/extract except continue`
loop shared by `scrape_pricing_info` and `scrape_features_info`: first
sub-page whose fetch succeeds and whose extraction is truthy wins. -/
def firstSubpageHit {α : Type} (fetch : Fetcher) (extractor : Soup → Option α) :
    List String → Option α
  | [] => none
  | u :: rest =>
    match fetch u with
    | FetchOutcome.exn _ => firstSubpageHit fetch extractor rest
    | FetchOutcome.ok _ soup =>
      match extractor soup with
      | some d => some d
      | none => firstSubpageHit fetch extractor rest

/-- `scrape_pricing_info`. -/
def scrape_pricing_info (fetch : Fetcher) (url : String) : Option (List PricingTier) :=
  firstSubpageHit fetch extract_pricing_from_page (pricingUrls url)

/-- `scrape_features_info`. -/
def scrape_features_info (fetch : Fetcher) (url : String) : Option (List String) :=
  firstSubpageHit fetch extract_features_from_page (featureUrls url)

/-- `scrape_about_info`: a single `/about` candidate; the about dict is
returned whenever the fetch succeeds (even if all its fields are
empty). -/
def scrape_about_info (fetch : Fetcher) (url : String) : Option AboutContent :=
  match fetch (url ++ "/about") with
  | FetchOutcome.exn _ => none
  | FetchOutcome.ok _ soup => some (extract_about_content soup)

/-- The success payload of `scrape_company_comprehensive`. -/
structure CompanyContent where
  homepage : HomepageContent
  pricing : Option (List PricingTier)
  features : Option (List String)
  about : Option AboutContent
deriving DecidableEq

/-- A company's scraped record: either the content dict or the
`{'error': ...}` dict. -/
inductive ScrapeResult where
  | error (msg : String)
  | content (c : CompanyContent)
deriving DecidableEq

/-- `scrape_company_comprehensive`: the `try` block wraps the root
fetch; the sub-page scrapers catch their own exceptions internally, so
the `except` branch is reachable only from the root `requests.get` /
parse. -/
def scrape_company_comprehensive (fetch : Fetcher) (url _company_name : String) :
    ScrapeResult :=
  match fetch url with
  | FetchOutcome.exn e =>
    ScrapeResult.error ("Failed to scrape " ++ url ++ ": " ++ e)
  | FetchOutcome.ok _status soup =>
    ScrapeResult.content
      { homepage := extract_homepage_content soup
        pricing := scrape_pricing_info fetch url
        features := scrape_features_info fetch url
        about := scrape_about_info fetch url }

/- ## Competitor discovery model
(`competitive_research.py` lines 138-303 and `main.py` lines 127-292) -/

/-- A discovered competitor candidate `{'name','url','source'}`. -/
structure Candidate where
  name : String
  url : String
  source : String
deriving DecidableEq

/-- One organic search result / custom-search item (its title and
link, the only fields the code reads). -/
structure SearchItem where
  title : String
  link : String

/-- One SerpAPI response body: the `organic_results` entries and the
`people_also_ask` questions. -/
structure SerpResp where
  organic : List SearchItem
  paa : List String

/-- One Google Custom Search response body: its `items`. -/
structure GoogleResp where
  items : List SearchItem

/-- Outcome of one SerpAPI request: an exception, or a parsed body. -/
inductive SerpOutcome where
  | exn (msg : String)
  | ok (r : SerpResp)

/-- Outcome of one Google Custom Search request. -/
inductive GoogleOutcome where
  | exn (msg : String)
  | ok (r : GoogleResp)

/-- `extract_competitor_name_from_title` (`competitive_research.py`
lines 264-286).  Note the quirk preserved from the source: the literal
`' vs '` separators were already removed by the `replace` calls, so the
`' vs ' in title.lower()` branch fires only for mixed-case variants
such as `' VS '`, in which case the case-sensitive split returns the
whole cleaned title as its single part. -/
def extract_competitor_name_from_title (title original_company : String) : String :=
  let t := pyReplace (pyReplace (pyReplace title " - " " ") " | " " ") " vs " " "
  let t := pyReplace (pyReplace t " vs " " ") " vs. " " "
  let words := pySplitWords t.data
  let vsPart : Option String :=
    if strContains (pyLower t) " vs " then
      (pySplitOn t.data " vs ".data).findSome? (fun part =>
        let p := pyReplace (pyReplace (String.mk (pyStrip part)) "?" "") "\"" ""
        if p ≠ "" ∧ pyLower p ≠ pyLower original_company then some p else none)
    else none
  match vsPart with
  | some p => p
  | none =>
    match words with
    | [] => ""
    | _ => String.mk (pyStrip (pyJoin " " ((words.take 2).map String.mk) |>.data))

/-- `extract_competitors_from_question` (identical in both
revisions): split a People-Also-Ask question on `' vs '` and keep every
side that is not the input company. -/
def extract_competitors_from_question (question company_name : String) : List Candidate :=
  if strContains (pyLower question) " vs " then
    (pySplitOn question.data " vs ".data).filterMap (fun part =>
      let n := pyReplace (pyReplace (String.mk (pyStrip part)) "?" "") "\"" ""
      if n ≠ "" ∧ pyLower n ≠ pyLower company_name then
        some { name := n
               url := "https://www." ++ pyReplace (pyLower n) " " "" ++ ".com"
               source := "people_also_ask" }
      else none)
    else []

/-- `discover_with_serpapi` (`competitive_research.py` lines 187-228)
applied to one query's outcome: the internal `try` catches every
exception and the function returns whatever was collected, so an
exception yields `[]`. -/
def discover_with_serpapi (outcome : SerpOutcome) (company_name : String) : List Candidate :=
  match outcome with
  | SerpOutcome.exn _ => []
  | SerpOutcome.ok r =>
    (r.organic.filterMap (fun item =>
      if ¬ (strContains (pyLower item.title) (pyLower company_name) = true) ∧ item.link ≠ "" then
        let n := extract_competitor_name_from_title item.title company_name
        if n ≠ "" then some { name := n, url := item.link, source := "serpapi" } else none
      else none))
    ++
    (r.paa.flatMap (fun q =>
      if strContains (pyLower q) "vs" || strContains (pyLower q) "alternative" then
        extract_competitors_from_question q company_name
      else []))

/-- `discover_with_google_search` (`competitive_research.py` lines
230-262) applied to one query's outcome. -/
def discover_with_google_search (outcome : GoogleOutcome) (company_name : String) :
    List Candidate :=
  match outcome with
  | GoogleOutcome.exn _ => []
  | GoogleOutcome.ok r =>
    r.items.filterMap (fun item =>
      if ¬ (strContains (pyLower item.title) (pyLower company_name) = true) ∧ item.link ≠ "" then
        let n := extract_competitor_name_from_title item.title company_name
        if n ≠ "" then some { name := n, url := item.link, source := "google_search" } else none
      else none)

/-- The `for query in queries[:k]: competitors.extend(...); if
len(competitors) >= 5: break` loop, over the per-query candidate
lists. -/
def extendLoop : List (List Candidate) → List Candidate → List Candidate
  | [], acc => acc
  | r :: rest, acc =>
    let acc' := acc ++ r
    if 5 ≤ acc'.length then acc' else extendLoop rest acc'

/-- The final dedup-and-truncate loop shared by both revisions: keep
the first occurrence of each (case-sensitive) name while fewer than 5
have been kept. -/
def dedup_competitors : List Candidate → List Candidate → List Candidate
  | [], acc => acc
  | c :: rest, acc =>
    if (!acc.any (fun u => u.name == c.name)) && acc.length < 5 then
      dedup_competitors rest (acc ++ [c])
    else
      dedup_competitors rest acc

/-- `discover_competitors_comprehensive` (`competitive_research.py`
lines 138-185).  `serpResps`/`googleResps` are the would-be responses of
the successive backend queries (the code issues at most 3 SerpAPI and 2
Google queries); the key flags state whether the respective credentials
were supplied. -/
def discover_competitors_comprehensive
    (hasSerpKey : Bool) (serpResps : List SerpOutcome)
    (hasGoogleKeys : Bool) (googleResps : List GoogleOutcome)
    (company_name : String) : List Candidate :=
  let competitors :=
    if hasSerpKey then
      extendLoop ((serpResps.take 3).map (fun o => discover_with_serpapi o company_name)) []
    else []
  let competitors :=
    if competitors.length < 3 ∧ hasGoogleKeys then
      extendLoop
        ((googleResps.take 2).map (fun o => discover_with_google_search o company_name))
        competitors
    else competitors
  dedup_competitors competitors []

/-- `extract_company_name_from_title` (`main.py` lines 262-274): no
`vs`-splitting, just the first two whitespace tokens of the cleaned
title. -/
def extract_company_name_from_title_main (title : String) : String :=
  let t := pyReplace (pyReplace (pyReplace title " - " " ") " | " " ") " vs " " "
  let words := pySplitWords t.data
  match words with
  | [] => ""
  | _ => String.mk (pyStrip (pyJoin " " ((words.take 2).map String.mk) |>.data))

/-- `discover_with_google_search` (`main.py` lines 169-210): iterates 3
queries internally, each wrapped in `try/except continue`. -/
def discover_with_google_search_main (resps : List GoogleOutcome) (company_name : String) :
    List Candidate :=
  (resps.take 3).flatMap (fun o =>
    match o with
    | GoogleOutcome.exn _ => []
    | GoogleOutcome.ok r =>
      r.items.filterMap (fun item =>
        if ¬ (strContains (pyLower item.title) (pyLower company_name) = true) ∧ item.link ≠ "" then
          let n := extract_company_name_from_title_main item.title
          if n ≠ "" ∧ n ≠ company_name then
            some { name := n, url := item.link, source := "google_search" }
          else none
        else none))

/-- `discover_with_serpapi` (`main.py` lines 212-260): 2 queries, the
top 3 organic results and top 2 People-Also-Ask questions of each. -/
def discover_with_serpapi_main (resps : List SerpOutcome) (company_name : String) :
    List Candidate :=
  (resps.take 2).flatMap (fun o =>
    match o with
    | SerpOutcome.exn _ => []
    | SerpOutcome.ok r =>
      ((r.organic.take 3).filterMap (fun item =>
        if ¬ (strContains (pyLower item.title) (pyLower company_name) = true) ∧ item.link ≠ "" then
          let n := extract_company_name_from_title_main item.title
          if n ≠ "" ∧ n ≠ company_name then
            some { name := n, url := item.link, source := "serpapi" }
          else none
        else none))
      ++
      ((r.paa.take 2).flatMap (fun q =>
        if strContains (pyLower q) "vs" then extract_competitors_from_question q company_name
        else [])))

/-- The fixed fallback candidates of `main.py` lines 151-156. -/
def fallbackCompetitors : List Candidate :=
  [ { name := "Competitor 1", url := "https://example1.com", source := "fallback" },
    { name := "Competitor 2", url := "https://example2.com", source := "fallback" },
    { name := "Competitor 3", url := "https://example3.com", source := "fallback" } ]

/-- `discover_competitors` (`main.py` lines 127-167).  Note the early
return: when Google Custom Search alone yields at least 3 raw
candidates they are returned truncated to 5 WITHOUT deduplication. -/
def discover_competitors
    (hasGoogleKeys : Bool) (googleResps : List GoogleOutcome)
    (hasSerpKey : Bool) (serpResps : List SerpOutcome)
    (company_name : String) : List Candidate :=
  let competitors :=
    if hasGoogleKeys then discover_with_google_search_main googleResps company_name else []
  if 3 ≤ competitors.length then competitors.take 5
  else
    let competitors :=
      if hasSerpKey ∧ competitors.length < 3 then
        competitors ++ discover_with_serpapi_main serpResps company_name
      else competitors
    if competitors.isEmpty then fallbackCompetitors
    else dedup_competitors competitors []

/- ## The competitor-data mapping and the scraping phase -/

/-- Python `dict` assignment `d[k] = v` on an insertion-ordered
association list: update in place if the key exists, else append. -/
def dictInsert (d : List (String × ScrapeResult)) (k : String) (v : ScrapeResult) :
    List (String × ScrapeResult) :=
  if d.any (fun p => p.1 == k) then
    d.map (fun p => if p.1 == k then (k, v) else p)
  else
    d ++ [(k, v)]

/-- Python `d.get(k)` / `k in d` on the association list. -/
def dictLookup (d : List (String × ScrapeResult)) (k : String) : Option ScrapeResult :=
  (d.find? (fun p => p.1 == k)).map (fun p => p.2)

/-- `scrape_competitors_comprehensive` (`competitive_research.py` lines
457-479): one entry per competitor in `competitors[:5]`.  The `except`
branch that would store a placeholder record is unreachable in the
model because `scrape_company_comprehensive` catches all its exceptions
internally and returns the `{'error': ...}` record instead. -/
def scrape_competitors_comprehensive (fetch : Fetcher) (competitors : List Candidate) :
    List (String × ScrapeResult) :=
  (competitors.take 5).foldl
    (fun d comp => dictInsert d comp.name (scrape_company_comprehensive fetch comp.url comp.name))
    []

/-- `scrape_competitors` (`main.py` lines 451-462): only
`competitors[:3]` are scraped; the `except: continue` would skip an
entry entirely (unreachable for the same reason as above). -/
def scrape_competitors_main (fetch : Fetcher) (competitors : List Candidate) :
    List (String × ScrapeResult) :=
  (competitors.take 3).foldl
    (fun d comp => dictInsert d comp.name (scrape_company_comprehensive fetch comp.url comp.name))
    []

/-- Steps 3-4 of `competitive_research.py`'s `main` (lines 85-94): scrape
the target, scrape the competitors, then add the target's record to the
competitor mapping under its own name. -/
def pipelineCompetitorData (fetch : Fetcher) (company_name company_url : String)
    (competitors : List Candidate) : List (String × ScrapeResult) :=
  dictInsert (scrape_competitors_comprehensive fetch competitors) company_name
    (scrape_company_comprehensive fetch company_url company_name)

/-- `competitor_names = list(competitor_data.keys())`
(`analyze_competitive_landscape`, line 488); this list is interpolated
via `', '.join(competitor_names)` into each of the six analysis
prompts. -/
def analysisCompetitorNames (competitor_data : List (String × ScrapeResult)) : List String :=
  competitor_data.map (fun p => p.1)

/- ## JSON model for the `table_data` response parsing
(`display_competitive_overview`, `competitive_research.py` lines
739-783) -/

/-- JSON values as `json.loads` produces them (numbers kept as their
lexeme: no claim inspects numeric values). -/
inductive JValue where
  | null
  | bool (b : Bool)
  | num (lexeme : String)
  | str (s : String)
  | arr (items : List JValue)
  | obj (members : List (String × JValue))

instance : Inhabited JValue := ⟨JValue.null⟩

/-- JSON insignificant whitespace. -/
def skipWs (cs : List Char) : List Char :=
  cs.dropWhile (fun c => c = ' ' || c = '\t' || c = '\n' || c = '\r')

/-- A single-character JSON string escape. -/
def escChar : Char → Option Char
  | 'n' => some '\n'
  | 't' => some '\t'
  | 'r' => some '\r'
  | 'b' => some (Char.ofNat 8)
  | 'f' => some (Char.ofNat 12)
  | '"' => some '"'
  | '/' => some '/'
  | '\\' => some '\\'
  | _ => none

/-- Hexadecimal digit value (code points 48-57 are the digits, 97-102
lowercase a-f, 65-70 uppercase A-F). -/
def hexVal (c : Char) : Option Nat :=
  let n := c.toNat
  if 48 ≤ n ∧ n ≤ 57 then some (n - 48)
  else if 97 ≤ n ∧ n ≤ 102 then some (n - 87)
  else if 65 ≤ n ∧ n ≤ 70 then some (n - 55)
  else none

/-- Parse a JSON string body after the opening quote; returns the
decoded characters and the remainder after the closing quote.
Surrogate-pair recombination is not modelled (no claim exercises
it). -/
def parseStringBody : List Char → Option (List Char × List Char)
  | [] => none
  | '\\' :: 'u' :: h1 :: h2 :: h3 :: h4 :: rest =>
    match hexVal h1, hexVal h2, hexVal h3, hexVal h4 with
    | some a, some b, some c, some d =>
      (parseStringBody rest).map
        (fun pr => (Char.ofNat (((a * 16 + b) * 16 + c) * 16 + d) :: pr.1, pr.2))
    | _, _, _, _ => none
  | '\\' :: e :: rest =>
    match escChar e with
    | some c => (parseStringBody rest).map (fun pr => (c :: pr.1, pr.2))
    | none => none
  | '"' :: rest => some ([], rest)
  | c :: rest =>
    if c.toNat < 32 then none
    else (parseStringBody rest).map (fun pr => (c :: pr.1, pr.2))

/-- Parse an optional JSON fraction part. -/
def parseFrac : List Char → Option (List Char × List Char)
  | '.' :: t =>
    let d := t.takeWhile Char.isDigit
    if d.isEmpty then none else some ('.' :: d, t.dropWhile Char.isDigit)
  | cs => some ([], cs)

/-- Parse an optional JSON exponent part. -/
def parseExp : List Char → Option (List Char × List Char)
  | [] => some ([], [])
  | e :: t =>
    if e = 'e' || e = 'E' then
      let sgnT : List Char × List Char :=
        match t with
        | '+' :: u => (['+'], u)
        | '-' :: u => (['-'], u)
        | _ => ([], t)
      let d := sgnT.2.takeWhile Char.isDigit
      if d.isEmpty then none
      else some (e :: sgnT.1 ++ d, sgnT.2.dropWhile Char.isDigit)
    else some ([], e :: t)

/-- Parse a JSON number (leading zeros rejected, as `json.loads`
does). -/
def parseNum (cs : List Char) : Option (JValue × List Char) :=
  let negT : List Char × List Char :=
    match cs with
    | '-' :: t => (['-'], t)
    | _ => ([], cs)
  let intPart := negT.2.takeWhile Char.isDigit
  let cs2 := negT.2.dropWhile Char.isDigit
  if intPart.isEmpty then none
  else if 1 < intPart.length && intPart.head? == some '0' then none
  else
    match parseFrac cs2 with
    | none => none
    | some (frac, cs3) =>
      match parseExp cs3 with
      | none => none
      | some (ex, cs4) =>
        some (JValue.num (String.mk (negT.1 ++ intPart ++ frac ++ ex)), cs4)

/-- Recursive-descent JSON value parser, fuel-indexed for structural
recursion (every recursive call strictly shortens the input, so
`fuel > input length` always suffices).  After the first element of an
array (resp. member of an object) and a comma, the remaining elements
are parsed by re-entering the parser on `'[' :: rest` (resp.
`'\x7b' :: rest`), which parses exactly the remaining
comma-separated tail; trailing commas are rejected as `json.loads`
rejects them. -/
def parseVal : Nat → List Char → Option (JValue × List Char)
  | 0, _ => none
  | fuel + 1, cs0 =>
    match skipWs cs0 with
    | [] => none
    | 'n' :: 'u' :: 'l' :: 'l' :: rest => some (JValue.null, rest)
    | 't' :: 'r' :: 'u' :: 'e' :: rest => some (JValue.bool true, rest)
    | 'f' :: 'a' :: 'l' :: 's' :: 'e' :: rest => some (JValue.bool false, rest)
    | '"' :: rest =>
      (parseStringBody rest).map (fun pr => (JValue.str (String.mk pr.1), pr.2))
    | '[' :: rest =>
      (match skipWs rest with
       | ']' :: r => some (JValue.arr [], r)
       | cs1 =>
         match parseVal fuel cs1 with
         | none => none
         | some (v, r) =>
           match skipWs r with
           | ']' :: r2 => some (JValue.arr [v], r2)
           | ',' :: r2 =>
             (match skipWs r2 with
              | ']' :: _ => none
              | _ =>
                match parseVal fuel ('[' :: r2) with
                | some (JValue.arr vs, r3) => some (JValue.arr (v :: vs), r3)
                | _ => none)
           | _ => none)
    | '\x7b' :: rest =>
      (match skipWs rest with
       | '\x7d' :: r => some (JValue.obj [], r)
       | '"' :: r =>
         (match parseStringBody r with
          | none => none
          | some (k, r1) =>
            match skipWs r1 with
            | ':' :: r2 =>
              (match parseVal fuel r2 with
               | none => none
               | some (v, r3) =>
                 match skipWs r3 with
                 | '\x7d' :: r4 => some (JValue.obj [(String.mk k, v)], r4)
                 | ',' :: r4 =>
                   (match skipWs r4 with
                    | '\x7d' :: _ => none
                    | _ =>
                      match parseVal fuel ('\x7b' :: r4) with
                      | some (JValue.obj kvs, r5) =>
                        some (JValue.obj ((String.mk k, v) :: kvs), r5)
                      | _ => none)
                 | _ => none)
            | _ => none)
       | _ => none)
    | c :: rest =>
      if c = '-' || c.isDigit then parseNum (c :: rest) else none

/-- `json.loads`: one JSON value, surrounded only by whitespace. -/
def jsonLoads (s : String) : Option JValue :=
  match parseVal (s.data.length + 1) s.data with
  | some (v, rest) => if (skipWs rest).isEmpty then some v else none
  | none => none

/-- `re.search(r'\[.*\]', text, re.DOTALL).group()`: the greedy match
runs from the first `'['` that has some `']'` after it to the LAST
`']'` of the whole text — equivalently (since later `'['`s cannot help)
from the first `'['` to the last `']'` when the former precedes the
latter. -/
def extract_json_span (s : String) : Option String :=
  let cs := s.data
  match cs.findIdx? (fun c => c == '[') with
  | none => none
  | some i =>
    match cs.reverse.findIdx? (fun c => c == ']') with
    | none => none
    | some k =>
      let j := cs.length - 1 - k
      if i < j then some (String.mk ((cs.drop i).take (j - i + 1))) else none

/-- Modelled from the spec: "locate the first `[...]` bracketed
substring in the free-text response" — read as the span from the first
`'['` to the first `']'` that follows it.  Used only to compare the
spec's wording against the code's greedy regex. -/
def firstBracketedSubstring (s : String) : Option String :=
  let cs := s.data
  match cs.findIdx? (fun c => c == '[') with
  | none => none
  | some i =>
    let after := cs.drop i
    match after.findIdx? (fun c => c == ']') with
    | none => none
    | some k => some (String.mk (after.take (k + 1)))

/-- `parsed_data` after the `try: ... json.loads ... except: pass`
block: the parsed array on success, the initial `{}` (here: the empty
list of records) on any extraction or parse failure.  A successful
parse of the extracted span is necessarily an array because the span
starts with `'['`. -/
def tableParsedData (resp : String) : List JValue :=
  match extract_json_span resp with
  | none => []
  | some sub =>
    match jsonLoads sub with
    | some (JValue.arr xs) => xs
    | _ => []

/-- Python `item.get(key, default)` for a JSON object, with
`json.loads` last-duplicate-wins key semantics.  (On a non-`dict` item
or a non-string value the real code would raise later at `.lower()`;
no such value arises in the inputs in scope, and the model returns the
default there.) -/
def jget (item : JValue) (key : String) : Option JValue :=
  match item with
  | JValue.obj kvs => kvs.foldl (fun acc kv => if kv.1 == key then some kv.2 else acc) none
  | _ => none

/-- `item.get(key, default)` coerced to the string cases the display
code consumes. -/
def jgetStr (item : JValue) (key dflt : String) : String :=
  match jget item key with
  | some (JValue.str s) => s
  | _ => dflt

/-- The four display fields of one table row
(`display_competitive_overview` lines 759-766 for the target row and
775-782 for a competitor row — the same lookup and fallback logic with
the row's company name): find the parsed record whose `company_name`
matches case-insensitively, defaulting every field to
`"Analyzing..."`. -/
def rowFields (row_name : String) (resp : String) : List String :=
  let parsed := tableParsedData resp
  match parsed.find? (fun item => pyLower (jgetStr item "company_name" "") == pyLower row_name) with
  | some item =>
    [ jgetStr item "target_persona" "Analyzing...",
      jgetStr item "market_positioning" "Analyzing...",
      jgetStr item "tone_messaging" "Analyzing...",
      jgetStr item "differentiation" "Analyzing..." ]
  | none => ["Analyzing...", "Analyzing...", "Analyzing...", "Analyzing..."]

/- ## Name normalizer (`extract_company_name_from_url`,
`competitive_research.py` lines 114-136) -/

/-- A character allowed in a URL scheme (RFC 3986, as
`urllib.parse` checks it). -/
def schemeChar (c : Char) : Bool :=
  c.isAlpha || c.isDigit || c = '+' || c = '-' || c = '.'

/-- Drop a leading `scheme:` from a URL's characters, as
`urllib.parse.urlsplit` recognizes one (a non-empty run of scheme
characters starting with a letter, followed by `':'`). -/
def stripScheme (cs : List Char) : List Char :=
  let pre := cs.takeWhile (fun c => c ≠ ':')
  if pre.length < cs.length ∧ ¬ pre.isEmpty ∧ pre.all schemeChar ∧
      (pre.head?.map Char.isAlpha).getD false then
    cs.drop (pre.length + 1)
  else cs

/-- `urllib.parse.urlparse(url).netloc`, modelled from the stdlib's
documented behaviour on the inputs in scope: the netloc is present only
after a literal `"//"`, runs until the next `'/'`, `'?'` or `'#'`, and
an unbalanced `'['`/`']'` raises `ValueError` (the `none` case — the
only way `urlparse` itself raises, reaching the function's `except`
branch). -/
def urlparse_netloc (url : String) : Option String :=
  let rest := stripScheme url.data
  if rest.take 2 = ['/', '/'] then
    let netloc := (rest.drop 2).takeWhile (fun c => c ≠ '/' ∧ c ≠ '?' ∧ c ≠ '#')
    if ('[' ∈ netloc ∧ ']' ∉ netloc) ∨ (']' ∈ netloc ∧ '[' ∉ netloc) then none
    else some (String.mk netloc)
  else some ""

/-- `extract_company_name_from_url`. -/
def extract_company_name_from_url (url : String) : String :=
  match urlparse_netloc url with
  | none => "Unknown Company"
  | some netloc =>
    let domain := netloc.data.map pyToLower
    let domain := replaceAll domain "www.".data []
    let domain := replaceAll domain "http://".data []
    let domain := replaceAll domain "https://".data []
    let company_name := if '.' ∈ domain then domain.takeWhile (fun c => c ≠ '.') else domain
    let company_name := replaceAll company_name "-".data " ".data
    let company_name := replaceAll company_name "_".data " ".data
    String.mk (pyTitleAux false company_name)

/-- A character allowed in the host labels of the well-formed absolute
URLs quantified over in the normalizer property. -/
def isHostChar (c : Char) : Bool :=
  c.isAlpha || c.isDigit || c = '-' || c = '_'

/-- Join DNS labels with dots (the well-formed host shape used to state
the normalizer property). -/
def joinDots : List (List Char) → List Char
  | [] => []
  | [l] => l
  | l :: ls => l ++ '.' :: joinDots ls

/-- A well-formed host: at least one label, each label non-empty and
made of host characters. -/
def ValidLabels (ls : List (List Char)) : Prop :=
  ls ≠ [] ∧ ∀ l ∈ ls, l ≠ [] ∧ ∀ c ∈ l, isHostChar c = true

/-- No two consecutive dots. -/
def noDotDot : List Char → Bool
  | [] => true
  | [_] => true
  | a :: b :: rest => !(a = '.' && b = '.') && noDotDot (b :: rest)

/- ## Content assembler and export
(`prepare_competitive_content`, `competitive_research.py` lines
657-677; `prepare_content_for_analysis`, `main.py` lines 555-578;
`display_export_options`, lines 1093-1114 resp. 639-660) -/

/-- Python `repr` of a string, for the f-string interpolation of the
scraped dicts (faithful for strings without quotes, backslashes or
control characters — the model always single-quotes). -/
def pyReprStr (s : String) : String :=
  "'" ++ s ++ "'"

/-- Python `repr` of a list of strings. -/
def pyReprStrList (xs : List String) : String :=
  "[" ++ pyJoin ", " (xs.map pyReprStr) ++ "]"

/-- Python `repr` of a pricing-tier dict. -/
def pyReprTier (t : PricingTier) : String :=
  "\x7b'name': " ++ pyReprStr t.name ++ ", 'price': " ++ pyReprStr t.price ++ "\x7d"

/-- Python `repr` of the pricing list / `None`. -/
def pyReprPricing : Option (List PricingTier) → String
  | none => "None"
  | some ts => "[" ++ pyJoin ", " (ts.map pyReprTier) ++ "]"

/-- Python `repr` of the features list / `None`. -/
def pyReprFeatures : Option (List String) → String
  | none => "None"
  | some fs => pyReprStrList fs

/-- Python `repr` of the homepage dict. -/
def pyReprHomepage (h : HomepageContent) : String :=
  "\x7b'title': " ++ pyReprStr h.title ++
  ", 'headline': " ++ pyReprStr h.headline ++
  ", 'subheadline': " ++ pyReprStr h.subheadline ++
  ", 'description': " ++ pyReprStr h.description ++
  ", 'features': " ++ pyReprStrList h.features ++ "\x7d"

/-- Python `repr` of the about dict / `None`. -/
def pyReprAbout : Option AboutContent → String
  | none => "None"
  | some a =>
    "\x7b'description': " ++ pyReprStr a.description ++
    ", 'mission': " ++ pyReprStr a.mission ++
    ", 'team_info': " ++ pyReprStr a.team_info ++ "\x7d"

/-- Python `repr` of a whole scraped record. -/
def pyReprScrapeResult : ScrapeResult → String
  | ScrapeResult.error m => "\x7b'error': " ++ pyReprStr m ++ "\x7d"
  | ScrapeResult.content c =>
    "\x7b'homepage': " ++ pyReprHomepage c.homepage ++
    ", 'pricing': " ++ pyReprPricing c.pricing ++
    ", 'features': " ++ pyReprFeatures c.features ++
    ", 'about': " ++ pyReprAbout c.about ++ "\x7d"

/-- The per-competitor block of the assembled content. -/
def competitorsBlock (competitor_data : List (String × ScrapeResult)) : String :=
  competitor_data.foldl
    (fun acc p => acc ++ p.1 ++ ": " ++ pyReprScrapeResult p.2 ++ "\n\n")
    ""

/-- One labelled section of the assembled content: the homepage dump,
present whenever the record is the content variant (the `'homepage' in
data` test).  Skipping a concatenation in the source is modelled as
concatenating the empty string; the produced string is identical. -/
def homepageSection (label : String) : ScrapeResult → String
  | ScrapeResult.content c => label ++ pyReprHomepage c.homepage ++ "\n\n"
  | ScrapeResult.error _ => ""

/-- The pricing dump, present when the pricing field exists and is
truthy (a non-empty list). -/
def pricingSection (label : String) : ScrapeResult → String
  | ScrapeResult.content c =>
    match c.pricing with
    | some p => if p.isEmpty then "" else label ++ pyReprPricing (some p) ++ "\n\n"
    | none => ""
  | ScrapeResult.error _ => ""

/-- The features dump, present when the features field exists and is
truthy. -/
def featuresSection (label : String) : ScrapeResult → String
  | ScrapeResult.content c =>
    match c.features with
    | some f => if f.isEmpty then "" else label ++ pyReprFeatures (some f) ++ "\n\n"
    | none => ""
  | ScrapeResult.error _ => ""

/-- The about dump (only `main.py` emits it), present when the about
field exists (the about dict is always truthy). -/
def aboutSection (label : String) : ScrapeResult → String
  | ScrapeResult.content c =>
    match c.about with
    | some a => label ++ pyReprAbout (some a) ++ "\n\n"
    | none => ""
  | ScrapeResult.error _ => ""

/-- The trailing competitors block, present when the mapping is
truthy (non-empty). -/
def competitorsSection (competitor_data : List (String × ScrapeResult)) : String :=
  if competitor_data.isEmpty then ""
  else "COMPETITORS:\n" ++ competitorsBlock competitor_data

/-- `prepare_competitive_content` (`competitive_research.py` lines
657-677): target header, homepage dump, truthy pricing/features dumps,
then one labelled line per competitor-mapping entry in insertion
order. -/
def prepare_competitive_content (company_name : String) (target_data : ScrapeResult)
    (competitor_data : List (String × ScrapeResult)) : String :=
  "TARGET COMPANY: " ++ company_name ++ "\n\n"
    ++ homepageSection "TARGET HOMEPAGE: " target_data
    ++ pricingSection "TARGET PRICING: " target_data
    ++ featuresSection "TARGET FEATURES: " target_data
    ++ competitorsSection competitor_data

/-- `prepare_content_for_analysis` (`main.py` lines 555-578): same
shape with a `COMPANY:` header and an additional truthy `ABOUT`
section. -/
def prepare_content_for_analysis (company_name : String) (company_data : ScrapeResult)
    (competitor_data : List (String × ScrapeResult)) : String :=
  "COMPANY: " ++ company_name ++ "\n\n"
    ++ homepageSection "HOMEPAGE: " company_data
    ++ pricingSection "PRICING: " company_data
    ++ featuresSection "FEATURES: " company_data
    ++ aboutSection "ABOUT: " company_data
    ++ competitorsSection competitor_data


/-- Python `analysis_results.get(key, '')` on the analysis bundle. -/
def analysisGet (analysis_results : List (String × String)) (key : String) : String :=
  ((analysis_results.find? (fun p => p.1 == key)).map (fun p => p.2)).getD ""

/-- The `export_data` dict built by `display_export_options` (identical
in both revisions); `ts` stands for `datetime.now().isoformat()`. -/
def display_export_data (company_name ts : String)
    (analysis_results : List (String × String)) : List (String × String) :=
  [ ("company", company_name),
    ("timestamp", ts),
    ("overview", analysisGet analysis_results "overview"),
    ("pricing", analysisGet analysis_results "pricing"),
    ("features", analysisGet analysis_results "features"),
    ("swot", analysisGet analysis_results "swot") ]

/- ## Concrete fixtures used by witnesses and counterexamples -/

/-- A parsed page with nothing the selectors can match. -/
def emptySoup : Soup where
  titleText := none
  selectOne := fun _ => none
  featureClassTexts := []
  pricingClassElems := []

/-- A network on which every request raises. -/
def exnFetcher : Fetcher := fun _ => FetchOutcome.exn "timeout"

/-- A network on which every request yields an HTTP 500 error page. -/
def fetch500 : Fetcher := fun _ => FetchOutcome.ok 500 emptySoup

/-- The LLM response of the `table_data` parsing scenario fixed by the
specification. -/
def acmeResponse : String :=
  "here is data: [\x7b\"company_name\":\"Acme\",\"target_persona\":\"SMBs\",\"market_positioning\":\"cheap\",\"tone_messaging\":\"casual\",\"differentiation\":\"price\"\x7d] thanks"

/-- A response with two bracketed substrings: the first is valid JSON
on its own, but the greedy regex spans both. -/
def twoBracketResponse : String :=
  "x [\x7b\"company_name\":\"Acme\",\"target_persona\":\"p\"\x7d] y [] z"

/-- A fourth fixture: the root page responds, every sub-page request
times out. -/
def rootOnlyFetcher : Fetcher := fun u =>
  if u == "https://t.com" then FetchOutcome.ok 200 emptySoup else FetchOutcome.exn "timeout"

/-- A pricing element whose name selector matches but whose price
selectors do not. -/
def nameOnlyElement : Element where
  selectOne := fun sel => if sel == ".tier-name" then some "Basic" else none

/-- Four distinct discovered competitors (more than `main.py`'s
scraping loop consumes). -/
def fourCompetitors : List Candidate :=
  [ { name := "A", url := "https://a.com", source := "serpapi" },
    { name := "B", url := "https://b.com", source := "serpapi" },
    { name := "C", url := "https://c.com", source := "serpapi" },
    { name := "D", url := "https://d.com", source := "serpapi" } ]

/-- A Google Custom Search response whose three items all reduce to the
same extracted competitor name. -/
def tripleGoogleResp : List GoogleOutcome :=
  [ GoogleOutcome.ok
      { items := [ { title := "Alpha Beta one", link := "http://u1" },
                   { title := "Alpha Beta two", link := "http://u2" },
                   { title := "Alpha Beta three", link := "http://u3" } ] } ]

/- ## Helper lemmas -/

theorem replaceFuel_eq_self_of_not_mem {pat rep : List Char} {c : Char} (hc : c ∈ pat) :
    ∀ (n : Nat) (s : List Char), c ∉ s → replaceFuel pat rep n s = s := by
  intro n
  induction n with
  | zero => intro s _; cases s <;> rfl
  | succ n ih =>
    intro s hs
    cases s with
    | nil => rfl
    | cons a as =>
      rw [replaceFuel]
      have hpre : pat.isPrefixOf (a :: as) = false := by
        by_contra h
        have hp : pat.isPrefixOf (a :: as) = true := by
          revert h; cases pat.isPrefixOf (a :: as) <;> simp
        have : c ∈ a :: as := (List.isPrefixOf_iff_prefix.mp hp).subset hc
        exact hs this
      rw [if_neg (by simp [hpre])]
      have : c ∉ as := fun h => hs (List.mem_cons_of_mem _ h)
      rw [ih as this]

theorem replaceFuel_ne_nil {pat rep : List Char} (hrep : rep ≠ [])
    (n : Nat) (s : List Char) (hs : s ≠ []) : replaceFuel pat rep n s ≠ [] := by
  cases n with
  | zero => cases s with
    | nil => exact absurd rfl hs
    | cons a as => simp [replaceFuel]
  | succ n =>
    cases s with
    | nil => exact absurd rfl hs
    | cons a as =>
      rw [replaceFuel]
      by_cases h : (pat.isPrefixOf (a :: as) && !pat.isEmpty) = true
      · rw [if_pos h]
        simp [hrep]
      · rw [if_neg h]
        simp

theorem replaceFuel_mem {pat rep : List Char} :
    ∀ (n : Nat) (s : List Char) (c : Char), c ∈ replaceFuel pat rep n s → c ∈ s ∨ c ∈ rep := by
  intro n
  induction n with
  | zero => intro s c hc; cases s <;> simp_all [replaceFuel]
  | succ n ih =>
    intro s c hc
    cases s with
    | nil => simp [replaceFuel] at hc
    | cons a as =>
      rw [replaceFuel] at hc
      by_cases h : (pat.isPrefixOf (a :: as) && !pat.isEmpty) = true
      · rw [if_pos h] at hc
        rcases List.mem_append.mp hc with h1 | h1
        · exact Or.inr h1
        · rcases ih _ _ h1 with h2 | h2
          · exact Or.inl (List.drop_subset _ _ h2)
          · exact Or.inr h2
      · rw [if_neg h] at hc
        rcases List.mem_cons.mp hc with rfl | h1
        · exact Or.inl (List.mem_cons_self _ _)
        · rcases ih _ _ h1 with h2 | h2
          · exact Or.inl (List.mem_cons_of_mem _ h2)
          · exact Or.inr h2

theorem takeWhile_all_of_mem {p : Char → Bool} :
    ∀ (l : List Char), (∀ c ∈ l, p c = true) → l.takeWhile p = l := by
  intro l
  induction l with
  | nil => intro _; rfl
  | cons a as ih =>
    intro h
    rw [List.takeWhile_cons, if_pos (h a (List.mem_cons_self _ _))]
    rw [ih (fun c hc => h c (List.mem_cons_of_mem _ hc))]

theorem mem_of_mem_takeWhile {p : Char → Bool} :
    ∀ (l : List Char) (c : Char), c ∈ l.takeWhile p → p c = true ∧ c ∈ l := by
  intro l
  induction l with
  | nil => intro c hc; simp at hc
  | cons a as ih =>
    intro c hc
    rw [List.takeWhile_cons] at hc
    by_cases h : p a = true
    · rw [if_pos h] at hc
      rcases List.mem_cons.mp hc with rfl | h1
      · exact ⟨h, List.mem_cons_self _ _⟩
      · obtain ⟨h2, h3⟩ := ih c h1
        exact ⟨h2, List.mem_cons_of_mem _ h3⟩
    · rw [if_neg h] at hc
      simp at hc

theorem noDotDot_cons_cons {a b : Char} {rest : List Char} :
    noDotDot (a :: b :: rest) = true ↔
      ¬(a = '.' ∧ b = '.') ∧ noDotDot (b :: rest) = true := by
  simp [noDotDot, Decidable.not_and_iff_or_not]
  tauto


theorem getLast?_mem_of_eq {l : List Char} {d : Char} (h : l.getLast? = some d) : d ∈ l := by
  cases l with
  | nil => simp at h
  | cons a as =>
    rw [List.getLast?_eq_getLast _ (by simp)] at h
    have := List.getLast_mem (l := a :: as) (by simp)
    rwa [Option.some_inj.mp h] at this

theorem noDotDot_of_no_dot : ∀ (l : List Char), (∀ c ∈ l, c ≠ '.') → noDotDot l = true := by
  intro l
  induction l with
  | nil => intro _; rfl
  | cons x xs ih =>
    intro h
    cases xs with
    | nil => rfl
    | cons y ys =>
      rw [noDotDot_cons_cons]
      exact ⟨fun hxy => h x (List.mem_cons_self _ _) hxy.1,
        ih (fun c hc => h c (List.mem_cons_of_mem _ hc))⟩

theorem noDotDot_append_dot_cons :
    ∀ (l : List Char) (j : Char) (js : List Char), (∀ c ∈ l, c ≠ '.') → j ≠ '.' →
      noDotDot (j :: js) = true → noDotDot (l ++ '.' :: j :: js) = true := by
  intro l
  induction l with
  | nil =>
    intro j js _ hj hnd
    rw [List.nil_append, noDotDot_cons_cons]
    exact ⟨fun hc => hj hc.2, hnd⟩
  | cons x xs ih =>
    intro j js hl hj hnd
    have hx : x ≠ '.' := hl x (List.mem_cons_self _ _)
    have htail := ih j js (fun c hc => hl c (List.mem_cons_of_mem _ hc)) hj hnd
    cases xs with
    | nil =>
      simp only [List.cons_append, List.nil_append] at htail ⊢
      rw [noDotDot_cons_cons]
      exact ⟨fun hc => hx hc.1, htail⟩
    | cons y ys =>
      simp only [List.cons_append] at htail ⊢
      rw [noDotDot_cons_cons]
      refine ⟨fun hc => hx hc.1, ?_⟩
      simpa using htail

theorem replaceFuel_www (n : Nat) : ∀ (s : List Char), s.length ≤ n → s ≠ [] →
    s.head? ≠ some '.' → noDotDot s = true → s.getLast? ≠ some '.' →
    replaceFuel "www.".data [] n s ≠ [] ∧
      (replaceFuel "www.".data [] n s).head? ≠ some '.' := by
  induction n with
  | zero =>
    intro s hlen hne _ _ _
    cases s with
    | nil => exact absurd rfl hne
    | cons a as => simp at hlen
  | succ n ih =>
    intro s hlen hne hhead hnd hlast
    cases s with
    | nil => exact absurd rfl hne
    | cons a as =>
      rw [replaceFuel]
      by_cases h : ("www.".data.isPrefixOf (a :: as) && !"www.".data.isEmpty) = true
      · rw [if_pos h]
        have h1 : "www.".data.isPrefixOf (a :: as) = true := by
          rw [Bool.and_eq_true] at h
          exact h.1
        have hp : "www.".data <+: (a :: as) := List.isPrefixOf_iff_prefix.mp h1
        obtain ⟨t, ht⟩ := hp
        have hdata : "www.".data = ['w', 'w', 'w', '.'] := rfl
        rw [hdata] at ht
        have hdrop : List.drop ("www.".data).length (a :: as) = t := by
          rw [← ht, hdata]
          rfl
        rw [hdrop]
        have htne : t ≠ [] := by
          rintro rfl
          rw [← ht] at hlast
          simp at hlast
        obtain ⟨u, us, rfl⟩ := List.exists_cons_of_ne_nil htne
        have hnd' : noDotDot (['w', 'w', 'w', '.'] ++ u :: us) = true := by
          rw [← ht] at hnd
          exact hnd
        have hstep : ¬(u = '.') ∧ noDotDot (u :: us) = true := by
          simp only [List.cons_append, List.nil_append] at hnd'
          have h1' := (noDotDot_cons_cons.mp hnd').2
          have h2 := (noDotDot_cons_cons.mp h1').2
          have h3 := (noDotDot_cons_cons.mp h2).2
          have h4 := noDotDot_cons_cons.mp h3
          exact ⟨fun hu => h4.1 ⟨rfl, hu⟩, h4.2⟩
        have hlen' : (u :: us).length ≤ n := by
          have h4 : (a :: as).length = 4 + (u :: us).length := by
            rw [← ht]
            simp only [List.length_append, List.length_cons, List.length_nil]
          omega
        have hlast' : (u :: us).getLast? ≠ some '.' := by
          rw [← ht] at hlast
          rw [List.getLast?_append] at hlast
          simpa using hlast
        have := ih (u :: us) hlen' (by simp) (by simpa using hstep.1) hstep.2 hlast'
        simpa using this
      · rw [if_neg h]
        exact ⟨by simp, by simpa using hhead⟩

theorem joinDots_facts : ∀ (ls : List (List Char)), ValidLabels ls →
    joinDots ls ≠ [] ∧ (joinDots ls).head? ≠ some '.' ∧ noDotDot (joinDots ls) = true ∧
      (joinDots ls).getLast? ≠ some '.' ∧
      ∀ c ∈ joinDots ls, isHostChar c = true ∨ c = '.' := by
  intro ls
  induction ls with
  | nil => rintro ⟨h, _⟩; exact absurd rfl h
  | cons l rest ih =>
    rintro ⟨-, hlab⟩
    obtain ⟨hl, hlc⟩ := hlab l (List.mem_cons_self _ _)
    have hnodot : ∀ c ∈ l, c ≠ '.' := by
      intro c hc heq
      have := hlc c hc
      rw [heq] at this
      simp [isHostChar] at this
    obtain ⟨x, xs, rfl⟩ := List.exists_cons_of_ne_nil hl
    cases rest with
    | nil =>
      refine ⟨by simp [joinDots], ?_, ?_, ?_, ?_⟩
      · show (x :: xs).head? ≠ some '.'
        simpa using hnodot x (List.mem_cons_self _ _)
      · exact noDotDot_of_no_dot _ hnodot
      · show (x :: xs).getLast? ≠ some '.'
        intro hcon
        exact hnodot _ (getLast?_mem_of_eq hcon) rfl
      · intro c hc
        exact Or.inl (hlc c hc)
    | cons l2 rest2 =>
      have hvalid2 : ValidLabels (l2 :: rest2) :=
        ⟨by simp, fun m hm => hlab m (List.mem_cons_of_mem _ hm)⟩
      obtain ⟨ih1, ih2, ih3, ih4, ih5⟩ := ih hvalid2
      obtain ⟨j2, js, hj⟩ := List.exists_cons_of_ne_nil ih1
      have hj2 : j2 ≠ '.' := by
        rw [hj] at ih2
        simpa using ih2
      have hjoin : joinDots ((x :: xs) :: l2 :: rest2) =
          (x :: xs) ++ '.' :: joinDots (l2 :: rest2) := rfl
      refine ⟨by rw [hjoin]; simp, ?_, ?_, ?_, ?_⟩
      · rw [hjoin]
        simpa using hnodot x (List.mem_cons_self _ _)
      · rw [hjoin, hj]
        rw [hj] at ih3
        exact noDotDot_append_dot_cons _ _ _ hnodot hj2 ih3
      · rw [hjoin, List.getLast?_append]
        rw [hj] at ih4 ⊢
        simpa using ih4
      · rw [hjoin]
        intro c hc
        rcases List.mem_append.mp hc with h1 | h1
        · exact Or.inl (hlc c h1)
        · rcases List.mem_cons.mp h1 with rfl | h2
          · exact Or.inr rfl
          · exact ih5 c h2

theorem pyToLower_eq_uncased {c d : Char} (hd : pyIsCased d = false) :
    pyToLower c = d → c = d := by
  unfold pyToLower
  split <;> intro h <;> first | exact h | (exfalso; rw [← h] at hd; simp [pyIsCased] at hd)

theorem pyToUpper_eq_uncased {c d : Char} (hd : pyIsCased d = false) :
    pyToUpper c = d → c = d := by
  unfold pyToUpper
  split <;> intro h <;> first | exact h | (exfalso; rw [← h] at hd; simp [pyIsCased] at hd)

theorem pyTitleChar_eq_uncased {b : Bool} {c d : Char} (hd : pyIsCased d = false) :
    pyTitleChar b c = d → c = d := by
  unfold pyTitleChar
  by_cases hc : pyIsCased c = true
  · rw [if_pos hc]
    cases b with
    | true => intro h; exact pyToLower_eq_uncased hd (by simpa using h)
    | false => intro h; exact pyToUpper_eq_uncased hd (by simpa using h)
  · rw [if_neg hc]
    exact id

theorem pyTitleAux_not_mem_uncased {d : Char} (hd : pyIsCased d = false) :
    ∀ (b : Bool) (s : List Char), d ∉ s → d ∉ pyTitleAux b s := by
  intro b s
  induction s generalizing b with
  | nil => intro _ h; simp [pyTitleAux] at h
  | cons c cs ih =>
    intro hmem hcon
    rcases List.mem_cons.mp hcon with h1 | h1
    · exact hmem (by rw [pyTitleChar_eq_uncased hd h1.symm]; exact List.mem_cons_self _ _)
    · exact ih (pyIsCased c) (fun h => hmem (List.mem_cons_of_mem _ h)) h1

theorem pyTitleAux_ne_nil {b : Bool} {s : List Char} (h : s ≠ []) : pyTitleAux b s ≠ [] := by
  cases s with
  | nil => exact absurd rfl h
  | cons c cs => simp [pyTitleAux]

theorem isHostChar_pyToLower {c : Char} (h : isHostChar c = true) :
    isHostChar (pyToLower c) = true := by
  revert h
  unfold pyToLower
  split <;> intro h <;> first | decide | exact h

theorem map_pyToLower_joinDots : ∀ (ls : List (List Char)),
    (joinDots ls).map pyToLower = joinDots (ls.map (List.map pyToLower)) := by
  intro ls
  induction ls with
  | nil => rfl
  | cons l rest ih =>
    cases rest with
    | nil => rfl
    | cons l2 rest2 =>
      show ((l ++ '.' :: joinDots (l2 :: rest2)).map pyToLower) = _
      rw [List.map_append, List.map_cons, ih]
      rfl

theorem ValidLabels_map_pyToLower {ls : List (List Char)} (h : ValidLabels ls) :
    ValidLabels (ls.map (List.map pyToLower)) := by
  obtain ⟨h1, h2⟩ := h
  refine ⟨by simpa using h1, ?_⟩
  intro l hl
  rcases List.mem_map.mp hl with ⟨m, hm, rfl⟩
  obtain ⟨hm1, hm2⟩ := h2 m hm
  refine ⟨by simpa using hm1, ?_⟩
  intro c hc
  rcases List.mem_map.mp hc with ⟨d, hd, rfl⟩
  exact isHostChar_pyToLower (hm2 d hd)

theorem isHostChar_excludes {c : Char} (h : isHostChar c = true) :
    c ≠ '.' ∧ c ≠ ':' ∧ c ≠ '/' ∧ c ≠ '?' ∧ c ≠ '#' ∧ c ≠ '[' ∧ c ≠ ']' := by
  refine ⟨?_, ?_, ?_, ?_, ?_, ?_, ?_⟩ <;> (rintro rfl; simp [isHostChar] at h)

theorem stripScheme_http (rest : List Char) :
    stripScheme ('h' :: 't' :: 't' :: 'p' :: ':' :: rest) = rest := by
  unfold stripScheme
  simp [List.takeWhile_cons, schemeChar]

theorem stripScheme_https (rest : List Char) :
    stripScheme ('h' :: 't' :: 't' :: 'p' :: 's' :: ':' :: rest) = rest := by
  unfold stripScheme
  simp [List.takeWhile_cons, schemeChar]

theorem urlparse_netloc_wellformed (scheme : String) (ls : List (List Char))
    (hscheme : scheme = "http" ∨ scheme = "https") (hls : ValidLabels ls) :
    urlparse_netloc (scheme ++ "://" ++ String.mk (joinDots ls)) = some (String.mk (joinDots ls)) := by
  have hchars := (joinDots_facts ls hls).2.2.2.2
  have hnotin : ∀ (d : Char), isHostChar d = false → d ≠ '.' → d ∉ joinDots ls := by
    intro d hd hdot hmem
    rcases hchars d hmem with h1 | h1
    · rw [hd] at h1; exact absurd h1 (by simp)
    · exact hdot h1
  have htw : List.takeWhile (fun c => decide (c ≠ '/' ∧ c ≠ '?' ∧ c ≠ '#')) (joinDots ls) =
      joinDots ls := by
    apply takeWhile_all_of_mem
    intro c hc
    rcases hchars c hc with h1 | h1
    · obtain ⟨-, -, h3, h4, h5, -, -⟩ := isHostChar_excludes h1
      simp [h3, h4, h5]
    · subst h1; decide
  have hbr : ¬ (('[' ∈ joinDots ls ∧ ']' ∉ joinDots ls) ∨
      (']' ∈ joinDots ls ∧ '[' ∉ joinDots ls)) := by
    rintro (⟨h1, -⟩ | ⟨h1, -⟩)
    · exact hnotin '[' (by decide) (by decide) h1
    · exact hnotin ']' (by decide) (by decide) h1
  rcases hscheme with rfl | rfl
  · have e : ("http" ++ "://" ++ String.mk (joinDots ls)).data =
        'h' :: 't' :: 't' :: 'p' :: ':' :: '/' :: '/' :: joinDots ls := rfl
    simp only [urlparse_netloc, e, stripScheme_http]
    rw [if_pos (show List.take 2 ('/' :: '/' :: joinDots ls) = ['/', '/'] from rfl)]
    have e2 : List.drop 2 ('/' :: '/' :: joinDots ls) = joinDots ls := rfl
    rw [e2, htw, if_neg hbr]
  · have e : ("https" ++ "://" ++ String.mk (joinDots ls)).data =
        'h' :: 't' :: 't' :: 'p' :: 's' :: ':' :: '/' :: '/' :: joinDots ls := rfl
    simp only [urlparse_netloc, e, stripScheme_https]
    rw [if_pos (show List.take 2 ('/' :: '/' :: joinDots ls) = ['/', '/'] from rfl)]
    have e2 : List.drop 2 ('/' :: '/' :: joinDots ls) = joinDots ls := rfl
    rw [e2, htw, if_neg hbr]
theorem extract_company_name_eq_some {url netloc : String}
    (h : urlparse_netloc url = some netloc) :
    extract_company_name_from_url url =
      String.mk (pyTitleAux false (replaceAll (replaceAll
        (if '.' ∈ replaceAll (replaceAll (replaceAll (netloc.data.map pyToLower)
              "www.".data []) "http://".data []) "https://".data []
         then (replaceAll (replaceAll (replaceAll (netloc.data.map pyToLower)
              "www.".data []) "http://".data []) "https://".data []).takeWhile
              (fun c => c ≠ '.')
         else replaceAll (replaceAll (replaceAll (netloc.data.map pyToLower)
              "www.".data []) "http://".data []) "https://".data [])
        "-".data " ".data) "_".data " ".data)) := by
  unfold extract_company_name_from_url
  rw [h]

theorem name_normalizer_wellformed (scheme : String) (ls : List (List Char))
    (hs : scheme = "http" ∨ scheme = "https") (hls : ValidLabels ls) :
    extract_company_name_from_url (scheme ++ "://" ++ String.mk (joinDots ls)) ≠ "" ∧
    '.' ∉ (extract_company_name_from_url (scheme ++ "://" ++ String.mk (joinDots ls))).data ∧
    ':' ∉ (extract_company_name_from_url (scheme ++ "://" ++ String.mk (joinDots ls))).data ∧
    '/' ∉ (extract_company_name_from_url (scheme ++ "://" ++ String.mk (joinDots ls))).data := by
  have hnet := urlparse_netloc_wellformed scheme ls hs hls
  rw [extract_company_name_eq_some hnet]
  -- the lowered host is again a well-formed host
  have hls' : ValidLabels (ls.map (List.map pyToLower)) := ValidLabels_map_pyToLower hls
  have hlow : (String.mk (joinDots ls)).data.map pyToLower =
      joinDots (ls.map (List.map pyToLower)) := map_pyToLower_joinDots ls
  set lhost := joinDots (ls.map (List.map pyToLower)) with hlhost
  obtain ⟨hf1, hf2, hf3, hf4, hf5⟩ := joinDots_facts _ hls'
  rw [hlow]
  -- the www. replacement keeps the string non-empty with a non-dot head
  set dw := replaceAll lhost "www.".data [] with hdw
  have hwww : dw ≠ [] ∧ dw.head? ≠ some '.' :=
    replaceFuel_www lhost.length lhost (le_refl _) hf1 hf2 hf3 hf4
  have hdwmem : ∀ c ∈ dw, isHostChar c = true ∨ c = '.' := by
    intro c hc
    rcases replaceFuel_mem lhost.length lhost c hc with h1 | h1
    · exact hf5 c h1
    · simp at h1
  -- the scheme replacements are identities: '/' never occurs in the host
  have hslash : '/' ∉ dw := by
    intro hmem
    rcases hdwmem '/' hmem with h1 | h1
    · simp [isHostChar] at h1
    · exact absurd h1 (by decide)
  have hh : replaceAll dw "http://".data [] = dw :=
    replaceFuel_eq_self_of_not_mem (by decide : '/' ∈ "http://".data) _ _ hslash
  have hhs : replaceAll (replaceAll dw "http://".data []) "https://".data [] = dw := by
    rw [hh]
    exact replaceFuel_eq_self_of_not_mem (by decide : '/' ∈ "https://".data) _ _ hslash
  rw [show replaceAll (replaceAll (replaceAll lhost "www.".data []) "http://".data [])
        "https://".data [] = dw by rw [← hdw, hh] at *; exact hhs]
  -- the part before the first dot
  set name1 := if '.' ∈ dw then dw.takeWhile (fun c => c ≠ '.') else dw with hname1
  have hn1ne : name1 ≠ [] := by
    rw [hname1]
    obtain ⟨x, xs, hx⟩ := List.exists_cons_of_ne_nil hwww.1
    have hxdot : x ≠ '.' := by
      rw [hx] at hwww
      simpa using hwww.2
    by_cases hdot : '.' ∈ dw
    · rw [if_pos hdot, hx, List.takeWhile_cons, if_pos (by simpa using hxdot)]
      simp
    · rw [if_neg hdot]
      exact hwww.1
  have hn1dot : '.' ∉ name1 := by
    rw [hname1]
    by_cases hdot : '.' ∈ dw
    · rw [if_pos hdot]
      intro hmem
      have := (mem_of_mem_takeWhile _ _ hmem).1
      simp at this
    · rw [if_neg hdot]
      exact hdot
  have hn1mem : ∀ c ∈ name1, isHostChar c = true ∨ c = '.' := by
    intro c hc
    apply hdwmem
    rw [hname1] at hc
    by_cases hdot : '.' ∈ dw
    · rw [if_pos hdot] at hc
      exact (mem_of_mem_takeWhile _ _ hc).2
    · rw [if_neg hdot] at hc
      exact hc
  -- the separator replacements keep non-emptiness and add only spaces
  set name2 := replaceAll name1 "-".data " ".data with hname2
  set name3 := replaceAll name2 "_".data " ".data with hname3
  have hn2ne : name2 ≠ [] := replaceFuel_ne_nil (by decide) _ _ hn1ne
  have hn3ne : name3 ≠ [] := replaceFuel_ne_nil (by decide) _ _ hn2ne
  have hn3mem : ∀ c ∈ name3, (isHostChar c = true ∨ c = '.') ∧ c ≠ '.' ∨ c = ' ' := by
    intro c hc
    rcases replaceFuel_mem _ _ c hc with h1 | h1
    · rcases replaceFuel_mem _ _ c h1 with h2 | h2
      · exact Or.inl ⟨hn1mem c h2, fun hd => hn1dot (hd ▸ h2)⟩
      · simp at h2
        exact Or.inr h2
    · simp at h1
      exact Or.inr h1
  have hdot3 : '.' ∉ name3 := by
    intro hmem
    rcases hn3mem '.' hmem with ⟨-, h2⟩ | h2
    · exact h2 rfl
    · exact absurd h2 (by decide)
  have hcolon3 : ':' ∉ name3 := by
    intro hmem
    rcases hn3mem ':' hmem with ⟨h1, -⟩ | h2
    · rcases h1 with h1 | h1
      · simp [isHostChar] at h1
      · exact absurd h1 (by decide)
    · exact absurd h2 (by decide)
  have hslash3 : '/' ∉ name3 := by
    intro hmem
    rcases hn3mem '/' hmem with ⟨h1, -⟩ | h2
    · rcases h1 with h1 | h1
      · simp [isHostChar] at h1
      · exact absurd h1 (by decide)
    · exact absurd h2 (by decide)
  refine ⟨?_, ?_, ?_, ?_⟩
  · intro hcon
    have : pyTitleAux false name3 = [] := congrArg String.data hcon
    exact pyTitleAux_ne_nil hn3ne this
  · exact pyTitleAux_not_mem_uncased (by decide) false name3 hdot3
  · exact pyTitleAux_not_mem_uncased (by decide) false name3 hcolon3
  · exact pyTitleAux_not_mem_uncased (by decide) false name3 hslash3
set_option maxRecDepth 10000

theorem occursIn_mem {needle hay : List Char} {c : Char} (h : occursIn needle hay)
    (hc : c ∈ needle) : c ∈ hay := by
  obtain ⟨pre, post, rfl⟩ := h
  simp [hc]

/-- Claim C5 (amended): for every well-formed absolute URL the
normalizer returns a non-empty name containing no dot (hence no
dot-separated suffix and no `"www."` occurrence) and no `':'` or `'/'`
(hence no scheme fragment); `"https://www.sonarsource.com"` normalizes
to `"Sonarsource"`; and any URL that `urlparse` fails on yields the
sentinel `"Unknown Company"`.  (The original claim's stronger "contains
no `www`" is refuted separately: `www` can survive inside a label.) -/
theorem name_normalizer_properties :
    (∀ (scheme : String) (ls : List (List Char)),
        (scheme = "http" ∨ scheme = "https") → ValidLabels ls →
        extract_company_name_from_url (scheme ++ "://" ++ String.mk (joinDots ls)) ≠ "" ∧
        '.' ∉ (extract_company_name_from_url (scheme ++ "://" ++ String.mk (joinDots ls))).data ∧
        ':' ∉ (extract_company_name_from_url (scheme ++ "://" ++ String.mk (joinDots ls))).data ∧
        '/' ∉ (extract_company_name_from_url (scheme ++ "://" ++ String.mk (joinDots ls))).data ∧
        ¬ occursIn "www.".data
          (extract_company_name_from_url (scheme ++ "://" ++ String.mk (joinDots ls))).data) ∧
    extract_company_name_from_url "https://www.sonarsource.com" = "Sonarsource" ∧
    (∀ url, urlparse_netloc url = none →
        extract_company_name_from_url url = "Unknown Company") := by
  refine ⟨?_, by decide, ?_⟩
  · intro scheme ls hs hls
    obtain ⟨h1, h2, h3, h4⟩ := name_normalizer_wellformed scheme ls hs hls
    refine ⟨h1, h2, h3, h4, ?_⟩
    intro hocc
    exact h2 (occursIn_mem hocc (by decide))
  · intro url h
    unfold extract_company_name_from_url
    rw [h]

/-- Claim C5 witness: the well-formed-URL branch applied to
`https://stripe.com`, the parse-failure branch applied to the invalid
IPv6 URL `https://[::1`. -/
theorem name_normalizer_properties_witness :
    extract_company_name_from_url "https://stripe.com" ≠ "" ∧
    '.' ∉ (extract_company_name_from_url "https://stripe.com").data ∧
    extract_company_name_from_url "https://[::1" = "Unknown Company" := by
  have h := name_normalizer_properties
  have hwf := h.1 "https" [['s','t','r','i','p','e'], ['c','o','m']] (Or.inr rfl)
    (by refine ⟨by simp, ?_⟩
        decide)
  have hurl : ("https" ++ "://" ++
      String.mk (joinDots [['s','t','r','i','p','e'], ['c','o','m']])) = "https://stripe.com" := by
    decide
  rw [hurl] at hwf
  exact ⟨hwf.1, hwf.2.1, h.2.2 "https://[::1" (by decide)⟩

/-- Claim C5 counterexample: the claim "the returned name contains no
`www`" fails — for the well-formed URL `https://xwwwx.com` the
normalizer returns `"Xwwwx"`, which contains `www` as a substring. -/
theorem name_normalizer_www_counterexample :
    extract_company_name_from_url "https://xwwwx.com" = "Xwwwx" ∧
    occursIn "www".data (extract_company_name_from_url "https://xwwwx.com").data := by
  refine ⟨by decide, ?_⟩
  refine ⟨['X'], ['x'], ?_⟩
  decide

theorem firstSubpageHit_none {α : Type} (fetch : Fetcher) (extractor : Soup → Option α) :
    ∀ (urls : List String), (∀ u ∈ urls, ∃ m, fetch u = FetchOutcome.exn m) →
      firstSubpageHit fetch extractor urls = none := by
  intro urls
  induction urls with
  | nil => intro _; rfl
  | cons u rest ih =>
    intro h
    obtain ⟨m, hm⟩ := h u (List.mem_cons_self _ _)
    rw [firstSubpageHit, hm]
    exact ih (fun v hv => h v (List.mem_cons_of_mem _ hv))

/-- Claim C1 (amended): `scrape_company_comprehensive` returns the
record whose only key is `error` exactly when the root request RAISES
(times out / network error) — an HTTP 5xx response does NOT raise and
yields a normal content record scraped from the error page.  Any
failure of a pricing/features/about sub-fetch leaves the corresponding
field `None` rather than producing the error variant. -/
theorem scrape_error_iff_root_exception (fetch : Fetcher) (url company_name : String) :
    ((∃ e, scrape_company_comprehensive fetch url company_name = ScrapeResult.error e) ↔
      (∃ m, fetch url = FetchOutcome.exn m)) ∧
    (∀ status soup, fetch url = FetchOutcome.ok status soup →
      (scrape_company_comprehensive fetch url company_name = ScrapeResult.content
        { homepage := extract_homepage_content soup
          pricing := scrape_pricing_info fetch url
          features := scrape_features_info fetch url
          about := scrape_about_info fetch url }) ∧
      ((∀ u ∈ pricingUrls url, ∃ m, fetch u = FetchOutcome.exn m) →
        scrape_pricing_info fetch url = none) ∧
      ((∀ u ∈ featureUrls url, ∃ m, fetch u = FetchOutcome.exn m) →
        scrape_features_info fetch url = none) ∧
      ((∃ m, fetch (url ++ "/about") = FetchOutcome.exn m) →
        scrape_about_info fetch url = none)) := by
  constructor
  · constructor
    · rintro ⟨e, he⟩
      unfold scrape_company_comprehensive at he
      cases h : fetch url with
      | exn m => exact ⟨m, rfl⟩
      | ok status soup => rw [h] at he; exact absurd he (by simp)
    · rintro ⟨m, hm⟩
      refine ⟨"Failed to scrape " ++ url ++ ": " ++ m, ?_⟩
      unfold scrape_company_comprehensive
      rw [hm]
  · intro status soup hok
    refine ⟨?_, ?_, ?_, ?_⟩
    · unfold scrape_company_comprehensive
      rw [hok]
    · exact firstSubpageHit_none fetch _ _
    · exact firstSubpageHit_none fetch _ _
    · rintro ⟨m, hm⟩
      unfold scrape_about_info
      rw [hm]

/-- Claim C1 witness: on an all-raising network the record is the error
variant; on a network where only the root responds, the record is a
content record whose pricing/features/about fields are all `None`. -/
theorem scrape_error_iff_root_exception_witness :
    (∃ e, scrape_company_comprehensive exnFetcher "https://x.com" "X" = ScrapeResult.error e) ∧
    scrape_pricing_info rootOnlyFetcher "https://t.com" = none ∧
    scrape_features_info rootOnlyFetcher "https://t.com" = none ∧
    scrape_about_info rootOnlyFetcher "https://t.com" = none := by
  have h1 := (scrape_error_iff_root_exception exnFetcher "https://x.com" "X").1.mpr
    ⟨"timeout", rfl⟩
  have h2 := (scrape_error_iff_root_exception rootOnlyFetcher "https://t.com" "T").2
    200 emptySoup rfl
  refine ⟨h1, h2.2.1 ?_, h2.2.2.1 ?_, h2.2.2.2 ?_⟩
  · intro u hu
    simp only [pricingUrls, List.mem_cons, List.not_mem_nil, or_false] at hu
    rcases hu with rfl | rfl | rfl <;> exact ⟨"timeout", rfl⟩
  · intro u hu
    simp only [featureUrls, List.mem_cons, List.not_mem_nil, or_false] at hu
    rcases hu with rfl | rfl | rfl <;> exact ⟨"timeout", rfl⟩
  · exact ⟨"timeout", rfl⟩

/-- Claim C1 counterexample: the claim says a 5xx root response yields
the error record; on a network answering every request with HTTP 500,
the root fetch IS a 5xx yet the result is a content record (with all
string fields empty and the about dict present), not an error. -/
theorem scrape_5xx_not_error_counterexample :
    fetch500 "https://e.com" = FetchOutcome.ok 500 emptySoup ∧
    scrape_company_comprehensive fetch500 "https://e.com" "E" =
      ScrapeResult.content
        { homepage := { title := "", headline := "", subheadline := "", description := "",
                        features := [] }
          pricing := none
          features := none
          about := some { description := "", mission := "", team_info := "" } } ∧
    ¬ ∃ e, scrape_company_comprehensive fetch500 "https://e.com" "E" = ScrapeResult.error e := by
  refine ⟨rfl, by decide, ?_⟩
  rintro ⟨e, he⟩
  rw [show scrape_company_comprehensive fetch500 "https://e.com" "E" =
      ScrapeResult.content
        { homepage := { title := "", headline := "", subheadline := "", description := "",
                        features := [] }
          pricing := none
          features := none
          about := some { description := "", mission := "", team_info := "" } } from by decide] at he
  exact absurd he (by simp)

theorem extract_text_by_selectors_none (soup : Soup) :
    ∀ (sels : List String), (∀ sel ∈ sels, soup.selectOne sel = none) →
      extract_text_by_selectors soup sels = "" := by
  intro sels
  induction sels with
  | nil => intro _; rfl
  | cons s rest ih =>
    intro h
    rw [extract_text_by_selectors, h s (List.mem_cons_self _ _)]
    exact ih (fun t ht => h t (List.mem_cons_of_mem _ ht))

/-- Claim C6 (confirmed): when the root fetch succeeds but no homepage
selector matches (no `<title>`, no element for any of the nine
headline/subheadline/description selectors, no feature-class element),
the homepage record has every string field equal to `""` and
`features = []` — the fields are always present, never null. -/
theorem homepage_defaults_on_no_match (soup : Soup)
    (htitle : soup.titleText = none)
    (hsel : ∀ sel ∈ ["h1", ".hero-title", ".main-headline", "h2", ".hero-subtitle",
        ".main-subtitle", "p", ".description", ".intro"], soup.selectOne sel = none)
    (hfeat : soup.featureClassTexts = []) :
    extract_homepage_content soup =
      { title := "", headline := "", subheadline := "", description := "", features := [] } := by
  unfold extract_homepage_content
  rw [htitle]
  rw [extract_text_by_selectors_none soup _ (fun s hs => hsel s (by simp at hs ⊢; tauto))]
  rw [extract_text_by_selectors_none soup _ (fun s hs => hsel s (by simp at hs ⊢; tauto))]
  rw [extract_text_by_selectors_none soup _ (fun s hs => hsel s (by simp at hs ⊢; tauto))]
  unfold extract_features_from_homepage
  rw [hfeat]
  rfl

/-- Claim C6 witness: the empty document. -/
theorem homepage_defaults_on_no_match_witness :
    extract_homepage_content emptySoup =
      { title := "", headline := "", subheadline := "", description := "", features := [] } :=
  homepage_defaults_on_no_match emptySoup rfl (fun _ _ => rfl) rfl

/-- Claim C8 (confirmed): a pricing-class element contributes a tier
only when both the extracted tier name and the extracted tier price are
non-empty; in particular an element whose price extraction is empty
(price selector unmatched, or matched with empty text) contributes no
tier, and every tier in the extracted list has a non-empty name and
price. -/
theorem pricing_tier_requires_name_and_price (soup : Soup) :
    (∀ tiers, extract_pricing_from_page soup = some tiers →
      ∀ t ∈ tiers, t.name ≠ "" ∧ t.price ≠ "") ∧
    (∀ e : Element, extract_tier_price e = "" → tierOfElement e = none) ∧
    (∀ e : Element, extract_tier_name e = "" → tierOfElement e = none) := by
  refine ⟨?_, ?_, ?_⟩
  · intro tiers htiers t ht
    unfold extract_pricing_from_page at htiers
    by_cases hemp : (soup.pricingClassElems.filterMap tierOfElement).isEmpty = true
    · rw [if_pos hemp] at htiers
      exact absurd htiers (by simp)
    · rw [if_neg hemp] at htiers
      obtain rfl := Option.some_inj.mp htiers
      obtain ⟨e, -, he⟩ := List.mem_filterMap.mp ht
      unfold tierOfElement at he
      by_cases hc : extract_tier_name e ≠ "" ∧ extract_tier_price e ≠ ""
      · rw [if_pos hc] at he
        obtain rfl := Option.some_inj.mp he
        exact hc
      · rw [if_neg hc] at he
        exact absurd he (by simp)
  · intro e hp
    unfold tierOfElement
    rw [if_neg (by rw [hp]; simp)]
  · intro e hn
    unfold tierOfElement
    rw [if_neg (by rw [hn]; simp)]

/-- Claim C8 witness: an element whose `.tier-name` selector matches
with text `"Basic"` but whose price selectors match nothing yields no
tier; a page consisting of that element yields no pricing data at
all. -/
theorem pricing_tier_requires_name_and_price_witness :
    extract_tier_name nameOnlyElement = "Basic" ∧
    tierOfElement nameOnlyElement = none ∧
    extract_pricing_from_page { emptySoup with pricingClassElems := [nameOnlyElement] } = none := by
  refine ⟨rfl, ?_, ?_⟩
  · exact (pricing_tier_requires_name_and_price emptySoup).2.1 nameOnlyElement rfl
  · have h := (pricing_tier_requires_name_and_price emptySoup).2.1 nameOnlyElement rfl
    unfold extract_pricing_from_page
    rw [show List.filterMap tierOfElement [nameOnlyElement] = [] from by
      rw [List.filterMap_cons, h]; rfl]
    rfl

/-- Claim C7 (confirmed): the exported JSON document has exactly the
top-level keys `company`, `timestamp`, `overview`, `pricing`,
`features`, `swot`, in that order, with string values — for every
company name, timestamp and analysis bundle. -/
theorem export_keys_exact (company_name ts : String)
    (analysis_results : List (String × String)) :
    (display_export_data company_name ts analysis_results).map Prod.fst =
      ["company", "timestamp", "overview", "pricing", "features", "swot"] := rfl

/-- Claim C9 (confirmed): both content assemblers are pure functions of
the company name, the target record and the competitor-record mapping
(with its iteration order): identical inputs give byte-identical
output. -/
theorem content_assembler_pure (n1 n2 : String) (t1 t2 : ScrapeResult)
    (m1 m2 : List (String × ScrapeResult))
    (hn : n1 = n2) (ht : t1 = t2) (hm : m1 = m2) :
    prepare_competitive_content n1 t1 m1 = prepare_competitive_content n2 t2 m2 ∧
    prepare_content_for_analysis n1 t1 m1 = prepare_content_for_analysis n2 t2 m2 := by
  subst hn; subst ht; subst hm
  exact ⟨rfl, rfl⟩

/-- Claim C9 witness: two calls on equal concrete inputs. -/
theorem content_assembler_pure_witness :
    prepare_competitive_content "Acme" (ScrapeResult.error "down")
        [("Rival", ScrapeResult.error "down")] =
      prepare_competitive_content "Acme" (ScrapeResult.error "down")
        [("Rival", ScrapeResult.error "down")] :=
  (content_assembler_pure "Acme" "Acme" (ScrapeResult.error "down") (ScrapeResult.error "down")
    [("Rival", ScrapeResult.error "down")] [("Rival", ScrapeResult.error "down")]
    rfl rfl rfl).1

theorem dictLookup_map_replace {k k' : String} {v : ScrapeResult} (h : k' ≠ k) :
    ∀ (d : List (String × ScrapeResult)),
      dictLookup (d.map (fun p => if p.1 == k then (k, v) else p)) k' = dictLookup d k' := by
  intro d
  induction d with
  | nil => rfl
  | cons p rest ih =>
    unfold dictLookup at ih ⊢
    by_cases hp : (p.1 == k) = true
    · have hk : p.1 = k := by simpa using hp
      have hne : (k == k') = false := by simpa using Ne.symm h
      rw [List.map_cons, if_pos hp]
      simp only [List.find?_cons, hne, hk]
      exact ih
    · rw [List.map_cons, if_neg hp]
      by_cases hq : (p.1 == k') = true
      · simp only [List.find?_cons, hq]
      · simp only [List.find?_cons, Bool.of_not_eq_true hq]
        exact ih

theorem dictLookup_insert_self (d : List (String × ScrapeResult)) (k : String)
    (v : ScrapeResult) : dictLookup (dictInsert d k v) k = some v := by
  unfold dictInsert
  by_cases hany : d.any (fun p => p.1 == k) = true
  · rw [if_pos hany]
    induction d with
    | nil => simp at hany
    | cons p rest ih =>
      by_cases hp : (p.1 == k) = true
      · rw [List.map_cons, if_pos hp]
        unfold dictLookup
        simp only [List.find?_cons, beq_self_eq_true]
        rfl
      · rw [List.map_cons, if_neg hp]
        unfold dictLookup
        simp only [List.find?_cons, Bool.of_not_eq_true hp]
        have : rest.any (fun p => p.1 == k) = true := by
          rcases List.any_eq_true.mp hany with ⟨x, hx, hxk⟩
          rcases List.mem_cons.mp hx with rfl | hx2
          · exact absurd hxk hp
          · exact List.any_eq_true.mpr ⟨x, hx2, hxk⟩
        exact ih this
  · rw [if_neg hany]
    have hf : d.any (fun p => p.1 == k) = false := by
      revert hany
      cases d.any (fun p => p.1 == k) <;> simp
    unfold dictLookup
    rw [List.find?_append]
    rw [List.find?_eq_none.mpr (List.any_eq_false.mp hf)]
    simp

theorem dictLookup_insert_isSome {d : List (String × ScrapeResult)} {k' : String}
    (k : String) (v : ScrapeResult) (h : (dictLookup d k').isSome = true) :
    (dictLookup (dictInsert d k v) k').isSome = true := by
  by_cases hk : k' = k
  · subst hk
    rw [dictLookup_insert_self]
    rfl
  · unfold dictInsert
    by_cases hany : d.any (fun p => p.1 == k) = true
    · rw [if_pos hany, dictLookup_map_replace hk]
      exact h
    · rw [if_neg hany]
      unfold dictLookup at h ⊢
      rw [List.find?_append]
      rcases ho : List.find? (fun p => p.1 == k') d with - | x
      · rw [ho] at h; simp at h
      · rw [ho]; rfl

theorem mem_insert_pair (d : List (String × ScrapeResult)) (k : String) (v : ScrapeResult) :
    (k, v) ∈ dictInsert d k v := by
  unfold dictInsert
  by_cases hany : d.any (fun p => p.1 == k) = true
  · rw [if_pos hany]
    rcases List.any_eq_true.mp hany with ⟨x, hx, hxk⟩
    exact List.mem_map.mpr ⟨x, hx, by rw [if_pos hxk]⟩
  · rw [if_neg hany]
    simp

theorem scrape_foldl_lookup_preserved (fetch : Fetcher) :
    ∀ (comps : List Candidate) (d : List (String × ScrapeResult)) (k : String),
      (dictLookup d k).isSome = true →
      (dictLookup (comps.foldl (fun d comp =>
        dictInsert d comp.name (scrape_company_comprehensive fetch comp.url comp.name)) d)
        k).isSome = true := by
  intro comps
  induction comps with
  | nil => intro d k h; exact h
  | cons c rest ih =>
    intro d k h
    exact ih _ k (dictLookup_insert_isSome _ _ h)

theorem scrape_foldl_lookup_mem (fetch : Fetcher) :
    ∀ (comps : List Candidate) (d : List (String × ScrapeResult)) (c : Candidate),
      c ∈ comps →
      (dictLookup (comps.foldl (fun d comp =>
        dictInsert d comp.name (scrape_company_comprehensive fetch comp.url comp.name)) d)
        c.name).isSome = true := by
  intro comps
  induction comps with
  | nil => intro d c h; simp at h
  | cons x rest ih =>
    intro d c h
    rcases List.mem_cons.mp h with rfl | h2
    · exact scrape_foldl_lookup_preserved fetch rest _ c.name
        (by rw [dictLookup_insert_self]; rfl)
    · exact ih _ c h2

/-- Claim C3 (amended): in the `competitive_research.py` pipeline, by
the end of the scraping phase the competitor-data mapping has an entry
for every discovered competitor (discovery returns at most 5 and the
scraping loop consumes `competitors[:5]`) and for the target itself —
for every network behaviour, including total scrape failure, which
stores the error record rather than omitting the entry.  (In the
`main.py` revision this fails: only `competitors[:3]` are scraped and
the target is never added — see the counterexample.) -/
theorem scraping_phase_entry_for_all (fetch : Fetcher) (company_name company_url : String)
    (competitors : List Candidate) (hlen : competitors.length ≤ 5) :
    (∀ c ∈ competitors,
      (dictLookup (pipelineCompetitorData fetch company_name company_url competitors)
        c.name).isSome = true) ∧
    (dictLookup (pipelineCompetitorData fetch company_name company_url competitors)
      company_name).isSome = true := by
  unfold pipelineCompetitorData scrape_competitors_comprehensive
  rw [List.take_of_length_le hlen]
  constructor
  · intro c hc
    exact dictLookup_insert_isSome _ _ (scrape_foldl_lookup_mem fetch competitors [] c hc)
  · rw [dictLookup_insert_self]
    rfl

/-- Claim C3 witness: four competitors on an all-failing network — all
four and the target are present after the comprehensive scraping
phase. -/
theorem scraping_phase_entry_for_all_witness :
    (∀ c ∈ fourCompetitors,
      (dictLookup (pipelineCompetitorData exnFetcher "Target" "https://t.com" fourCompetitors)
        c.name).isSome = true) ∧
    (dictLookup (pipelineCompetitorData exnFetcher "Target" "https://t.com" fourCompetitors)
      "Target").isSome = true :=
  scraping_phase_entry_for_all exnFetcher "Target" "https://t.com" fourCompetitors (by decide)

/-- Claim C3 counterexample: in the `main.py` revision the scraping
phase consumes only `competitors[:3]`, so the fourth discovered
competitor `"D"` has no mapping entry at all (and the target is never
added either). -/
theorem scraping_phase_missing_entry_counterexample :
    "D" ∈ fourCompetitors.map (fun c => c.name) ∧
    dictLookup (scrape_competitors_main exnFetcher fourCompetitors) "D" = none := by
  refine ⟨by decide, by decide⟩

theorem dedup_competitors_facts :
    ∀ (cs acc : List Candidate), ((acc.map (fun c => c.name)).Nodup) → acc.length ≤ 5 →
      ((dedup_competitors cs acc).map (fun c => c.name)).Nodup ∧
        (dedup_competitors cs acc).length ≤ 5 := by
  intro cs
  induction cs with
  | nil => intro acc h1 h2; exact ⟨h1, h2⟩
  | cons c rest ih =>
    intro acc h1 h2
    rw [dedup_competitors]
    by_cases h : ((!acc.any fun u => u.name == c.name) && decide (acc.length < 5)) = true
    · rw [if_pos h]
      rw [Bool.and_eq_true, Bool.not_eq_true'] at h
      obtain ⟨hnot, hlt⟩ := h
      have hlt5 : acc.length < 5 := of_decide_eq_true hlt
      have hcn : c.name ∉ acc.map (fun c => c.name) := by
        intro hmem
        rcases List.mem_map.mp hmem with ⟨u, hu, huc⟩
        have := List.any_eq_false.mp hnot u hu
        simp [huc] at this
      refine ih (acc ++ [c]) ?_ (by simp; omega)
      rw [List.map_append]
      exact List.nodup_append.mpr ⟨h1, by simp, by
        intro a ha hb
        simp at hb
        exact hcn (hb ▸ ha)⟩
    · rw [if_neg h]
      exact ih acc h1 h2

theorem extendLoop_empties :
    ∀ (rs : List (List Candidate)) (acc : List Candidate),
      (∀ r ∈ rs, r = []) → extendLoop rs acc = acc := by
  intro rs
  induction rs with
  | nil => intro acc _; rfl
  | cons r rest ih =>
    intro acc h
    rw [extendLoop, h r (List.mem_cons_self _ _), List.append_nil]
    by_cases h5 : 5 ≤ acc.length
    · rw [if_pos h5]
    · rw [if_neg h5]
      exact ih acc (fun x hx => h x (List.mem_cons_of_mem _ hx))

/-- Claim C2 (amended): both discovery revisions always return at most
5 candidates.  Name uniqueness (case-sensitive) always holds in the
`competitive_research.py` revision; in the `main.py` revision it holds
on every path except the early return taken when Google Custom Search
alone yields at least 3 raw candidates, which are returned truncated to
5 WITHOUT deduplication (see the counterexample).  If every backend
call raises, neither function raises: the `competitive_research.py`
revision returns the empty list and the `main.py` revision returns the
fixed 3-entry fallback set tagged `"fallback"`. -/
theorem discovery_invariants :
    (∀ (hasSerp : Bool) (serpResps : List SerpOutcome) (hasGoogle : Bool)
        (googleResps : List GoogleOutcome) (company_name : String),
      (discover_competitors_comprehensive hasSerp serpResps hasGoogle googleResps
          company_name).length ≤ 5 ∧
      ((discover_competitors_comprehensive hasSerp serpResps hasGoogle googleResps
          company_name).map (fun c => c.name)).Nodup) ∧
    (∀ (hasGoogle : Bool) (googleResps : List GoogleOutcome) (hasSerp : Bool)
        (serpResps : List SerpOutcome) (company_name : String),
      (discover_competitors hasGoogle googleResps hasSerp serpResps company_name).length ≤ 5 ∧
      ((if hasGoogle then discover_with_google_search_main googleResps company_name
          else []).length < 3 →
        ((discover_competitors hasGoogle googleResps hasSerp serpResps company_name).map
          (fun c => c.name)).Nodup)) ∧
    (∀ (hasSerp : Bool) (serpResps : List SerpOutcome) (hasGoogle : Bool)
        (googleResps : List GoogleOutcome) (company_name : String),
      (∀ o ∈ serpResps, ∃ m, o = SerpOutcome.exn m) →
      (∀ o ∈ googleResps, ∃ m, o = GoogleOutcome.exn m) →
      discover_competitors_comprehensive hasSerp serpResps hasGoogle googleResps company_name
          = [] ∧
      discover_competitors hasGoogle googleResps hasSerp serpResps company_name
          = fallbackCompetitors) := by
  refine ⟨?_, ?_, ?_⟩
  · intro hasSerp serpResps hasGoogle googleResps company_name
    have h := dedup_competitors_facts
      (let competitors :=
        if hasSerp then
          extendLoop ((serpResps.take 3).map (fun o => discover_with_serpapi o company_name)) []
        else []
       if competitors.length < 3 ∧ hasGoogle = true then
         extendLoop
           ((googleResps.take 2).map (fun o => discover_with_google_search o company_name))
           competitors
       else competitors)
      [] (by simp) (by simp)
    exact ⟨h.2, h.1⟩
  · intro hasGoogle googleResps hasSerp serpResps company_name
    unfold discover_competitors
    by_cases h3 : 3 ≤ (if hasGoogle = true then
        discover_with_google_search_main googleResps company_name else []).length
    · rw [if_pos h3]
      exact ⟨List.length_take_le _ _, fun hlt => absurd h3 (by omega)⟩
    · rw [if_neg h3]
      by_cases hemp : (if hasSerp = true ∧ (if hasGoogle = true then
            discover_with_google_search_main googleResps company_name else []).length < 3 then
          (if hasGoogle = true then
            discover_with_google_search_main googleResps company_name else []) ++
            discover_with_serpapi_main serpResps company_name
        else (if hasGoogle = true then
            discover_with_google_search_main googleResps company_name else [])).isEmpty = true
      · rw [if_pos hemp]
        exact ⟨by decide, fun _ => by decide⟩
      · rw [if_neg hemp]
        exact ⟨(dedup_competitors_facts _ [] (by simp) (by simp)).2,
          fun _ => (dedup_competitors_facts _ [] (by simp) (by simp)).1⟩
  · intro hasSerp serpResps hasGoogle googleResps company_name hserp hgoogle
    have hserpList : ∀ r ∈ (serpResps.take 3).map
        (fun o => discover_with_serpapi o company_name), r = [] := by
      intro r hr
      rcases List.mem_map.mp hr with ⟨o, ho, rfl⟩
      obtain ⟨m, rfl⟩ := hserp o (List.mem_of_mem_take ho)
      rfl
    have hgoogleList : ∀ r ∈ (googleResps.take 2).map
        (fun o => discover_with_google_search o company_name), r = [] := by
      intro r hr
      rcases List.mem_map.mp hr with ⟨o, ho, rfl⟩
      obtain ⟨m, rfl⟩ := hgoogle o (List.mem_of_mem_take ho)
      rfl
    have hmainGoogle : discover_with_google_search_main googleResps company_name = [] := by
      unfold discover_with_google_search_main
      rw [List.flatMap_eq_nil_iff]
      intro o ho
      obtain ⟨m, rfl⟩ := hgoogle o (List.mem_of_mem_take ho)
      rfl
    have hmainSerp : discover_with_serpapi_main serpResps company_name = [] := by
      unfold discover_with_serpapi_main
      rw [List.flatMap_eq_nil_iff]
      intro o ho
      obtain ⟨m, rfl⟩ := hserp o (List.mem_of_mem_take ho)
      rfl
    constructor
    · unfold discover_competitors_comprehensive
      simp only [extendLoop_empties _ [] hserpList, extendLoop_empties _ [] hgoogleList,
        ite_self]
      rfl
    · unfold discover_competitors
      simp [hmainGoogle, hmainSerp]

/-- Claim C2 witness: with both backends raising, the
`competitive_research.py` revision returns `[]` and the `main.py`
revision returns the fallback set; with no credentials at all the
`main.py` result (the fallback set) has pairwise-distinct names. -/
theorem discovery_invariants_witness :
    discover_competitors_comprehensive true [SerpOutcome.exn "boom"] true
        [GoogleOutcome.exn "boom"] "Zeta" = [] ∧
    discover_competitors true [GoogleOutcome.exn "boom"] true [SerpOutcome.exn "boom"]
        "Zeta" = fallbackCompetitors ∧
    ((discover_competitors false [] false [] "Zeta").map (fun c => c.name)).Nodup := by
  have hserp : ∀ o ∈ [SerpOutcome.exn "boom"], ∃ m, o = SerpOutcome.exn m := by
    intro o ho
    rcases List.mem_cons.mp ho with rfl | hcon
    · exact ⟨"boom", rfl⟩
    · simp at hcon
  have hgoogle : ∀ o ∈ [GoogleOutcome.exn "boom"], ∃ m, o = GoogleOutcome.exn m := by
    intro o ho
    rcases List.mem_cons.mp ho with rfl | hcon
    · exact ⟨"boom", rfl⟩
    · simp at hcon
  have h3 := discovery_invariants.2.2 true [SerpOutcome.exn "boom"] true
    [GoogleOutcome.exn "boom"] "Zeta" hserp hgoogle
  have h2 := (discovery_invariants.2.1 false [] false [] "Zeta").2 (by decide)
  exact ⟨h3.1, h3.2, h2⟩

/-- Claim C2 counterexample: in the `main.py` revision, a single Google
response whose three items share the extracted name `"Alpha Beta"`
triggers the `len >= 3` early return, which skips deduplication — the
returned list has three case-sensitively equal names. -/
theorem discovery_duplicate_names_counterexample :
    (discover_competitors true tripleGoogleResp false [] "Zeta").map (fun c => c.name) =
      ["Alpha Beta", "Alpha Beta", "Alpha Beta"] ∧
    ¬ ((discover_competitors true tripleGoogleResp false [] "Zeta").map
        (fun c => c.name)).Nodup := by
  refine ⟨by decide, by decide⟩

/-- Claim C4 (amended): the `table_data` parser extracts the span from
the FIRST `'['` to the LAST `']'` of the LLM response (the regex
`\[.*\]` is greedy — not the first bracketed substring, see the
counterexample) and parses it as JSON.  On the specification's concrete
input it extracts exactly one record whose `company_name` matches
`"Acme"` case-insensitively and whose display fields are filled from
the record; and for any input whose extraction or JSON parse fails, it
does not raise and every display field falls back to
`"Analyzing..."`. -/
theorem table_data_parsing :
    ((tableParsedData acmeResponse).length = 1 ∧
     (tableParsedData acmeResponse).all
       (fun item => pyLower (jgetStr item "company_name" "") == pyLower "Acme") = true ∧
     rowFields "ACME" acmeResponse = ["SMBs", "cheap", "casual", "price"]) ∧
    (∀ resp row_name, tableParsedData resp = [] →
      rowFields row_name resp =
        ["Analyzing...", "Analyzing...", "Analyzing...", "Analyzing..."]) ∧
    (∀ resp, (extract_json_span resp = none ∨
        ∀ sub, extract_json_span resp = some sub → jsonLoads sub = none) →
      tableParsedData resp = []) := by
  refine ⟨⟨by decide, by decide, by decide⟩, ?_, ?_⟩
  · intro resp row_name h
    unfold rowFields
    rw [h]
    rfl
  · intro resp h
    unfold tableParsedData
    rcases hs : extract_json_span resp with - | sub
    · rfl
    · rcases h with h1 | h1
      · rw [hs] at h1
        exact absurd h1 (by simp)
      · show (match jsonLoads sub with
            | some (JValue.arr xs) => xs
            | _ => []) = []
        rw [h1 sub hs]

/-- Claim C4 witness: the graceful-failure branch applied to a
bracket-free garbage response. -/
theorem table_data_parsing_witness :
    rowFields "Acme" "total garbage, no json here" =
      ["Analyzing...", "Analyzing...", "Analyzing...", "Analyzing..."] :=
  table_data_parsing.2.1 "total garbage, no json here" "Acme" (by rfl)

/-- Claim C4 counterexample: the claim says the parser locates the
FIRST `[...]` bracketed substring.  On a response with two bracketed
chunks the first bracketed substring is valid JSON holding an Acme
record, but the code's greedy regex spans from the first `'['` to the
last `']'`, the parse of that span fails, and every display field falls
back to `"Analyzing..."` instead of the record's values. -/
theorem table_data_greedy_counterexample :
    firstBracketedSubstring twoBracketResponse =
      some "[\x7b\"company_name\":\"Acme\",\"target_persona\":\"p\"\x7d]" ∧
    (jsonLoads "[\x7b\"company_name\":\"Acme\",\"target_persona\":\"p\"\x7d]").isSome = true ∧
    extract_json_span twoBracketResponse =
      some "[\x7b\"company_name\":\"Acme\",\"target_persona\":\"p\"\x7d] y []" ∧
    extract_json_span twoBracketResponse ≠ firstBracketedSubstring twoBracketResponse ∧
    tableParsedData twoBracketResponse = [] ∧
    rowFields "Acme" twoBracketResponse =
      ["Analyzing...", "Analyzing...", "Analyzing...", "Analyzing..."] := by
  exact ⟨by decide, by decide, by decide, by decide, by rfl, by decide⟩

theorem occursIn_append_right {needle hay : List Char} (t : List Char)
    (h : occursIn needle hay) : occursIn needle (hay ++ t) := by
  obtain ⟨pre, post, rfl⟩ := h
  exact ⟨pre, post ++ t, by simp⟩

theorem occursIn_append_left {needle hay : List Char} (t : List Char)
    (h : occursIn needle hay) : occursIn needle (t ++ hay) := by
  obtain ⟨pre, post, rfl⟩ := h
  exact ⟨t ++ pre, post, by simp⟩

theorem occursIn_str_append {x : List Char} {s : String} (u : String)
    (h : occursIn x s.data) : occursIn x (s ++ u).data := by
  rw [String.data_append]
  exact occursIn_append_right _ h

theorem occursIn_str_append_left {x : List Char} {u : String} (s : String)
    (h : occursIn x u.data) : occursIn x (s ++ u).data := by
  rw [String.data_append]
  exact occursIn_append_left _ h

theorem competitorsBlock_foldl_entry {n : String} {v : ScrapeResult} :
    ∀ (d : List (String × ScrapeResult)) (acc : String), (n, v) ∈ d →
      occursIn (n ++ ": " ++ pyReprScrapeResult v ++ "\n\n").data
        (d.foldl (fun acc p => acc ++ p.1 ++ ": " ++ pyReprScrapeResult p.2 ++ "\n\n")
          acc).data := by
  intro d
  induction d with
  | nil => intro acc h; simp at h
  | cons p rest ih =>
    intro acc h
    rw [List.foldl_cons]
    rcases List.mem_cons.mp h with heq | h2
    · obtain rfl : p = (n, v) := heq.symm ▸ rfl
      have hstep : ∀ (e : List (String × ScrapeResult)) (a : String),
          ∃ t : String, e.foldl
            (fun acc p => acc ++ p.1 ++ ": " ++ pyReprScrapeResult p.2 ++ "\n\n") a = a ++ t := by
        intro e
        induction e with
        | nil => intro a; exact ⟨"", by simp⟩
        | cons q qrest ihq =>
          intro a
          obtain ⟨t, ht⟩ := ihq (a ++ q.1 ++ ": " ++ pyReprScrapeResult q.2 ++ "\n\n")
          refine ⟨q.1 ++ ": " ++ pyReprScrapeResult q.2 ++ "\n\n" ++ t, ?_⟩
          rw [List.foldl_cons, ht]
          simp [String.ext_iff]
      obtain ⟨t, ht⟩ := hstep rest (acc ++ n ++ ": " ++ pyReprScrapeResult v ++ "\n\n")
      rw [ht]
      exact ⟨acc.data, t.data, by simp⟩
    · exact ih _ h2

theorem competitorsBlock_entry_occurs {d : List (String × ScrapeResult)}
    {n : String} {v : ScrapeResult} (h : (n, v) ∈ d) :
    occursIn (n ++ ": " ++ pyReprScrapeResult v ++ "\n\n").data (competitorsBlock d).data :=
  competitorsBlock_foldl_entry d "" h

theorem pyJoin_mem_occurs : ∀ (xs : List String) (x : String), x ∈ xs →
    occursIn x.data (pyJoin ", " xs).data := by
  intro xs
  induction xs with
  | nil => intro x h; simp at h
  | cons y ys ih =>
    intro x h
    cases ys with
    | nil =>
      rcases List.mem_cons.mp h with rfl | h2
      · exact ⟨[], [], by simp [pyJoin]⟩
      · simp at h2
    | cons z zs =>
      rcases List.mem_cons.mp h with rfl | h2
      · show occursIn x.data (x ++ ", " ++ pyJoin ", " (z :: zs)).data
        exact ⟨[], (", " ++ pyJoin ", " (z :: zs)).data, by simp⟩
      · show occursIn x.data (y ++ ", " ++ pyJoin ", " (z :: zs)).data
        obtain ⟨pre, post, heq⟩ := ih x h2
        exact ⟨(y ++ ", ").data ++ pre, post, by simp [heq]⟩

theorem prepare_content_occurrences (company_name : String) (c : CompanyContent)
    (m : List (String × ScrapeResult)) :
    occursIn ("TARGET HOMEPAGE: " ++ pyReprHomepage c.homepage).data
      (prepare_competitive_content company_name (ScrapeResult.content c) m).data ∧
    (∀ (n : String) (v : ScrapeResult), (n, v) ∈ m →
      occursIn (n ++ ": " ++ pyReprScrapeResult v ++ "\n\n").data
        (prepare_competitive_content company_name (ScrapeResult.content c) m).data) := by
  constructor
  · unfold prepare_competitive_content
    apply occursIn_str_append
    apply occursIn_str_append
    apply occursIn_str_append
    apply occursIn_str_append_left
    exact ⟨[], "\n\n".data, by simp [homepageSection]⟩
  · intro n v hnv
    unfold prepare_competitive_content
    apply occursIn_str_append_left
    unfold competitorsSection
    rw [if_neg (by
      intro hcon
      rw [List.isEmpty_iff.mp hcon] at hnv
      simp at hnv)]
    apply occursIn_str_append_left
    exact competitorsBlock_entry_occurs hnv

/-- Claim C10 (confirmed): in the `competitive_research.py` revision the
target's scraped record is inserted into the competitor-data mapping
under the target's own name before analysis
(`competitor_data[company_name] = target_company_data`, line 94).
Consequently the assembled content contains the target's data twice —
once in the TARGET HOMEPAGE section and again as the target's own entry
in the COMPETITORS block — and `competitor_names =
list(competitor_data.keys())`, the list interpolated via
`', '.join(...)` into every analysis prompt, includes the target's own
name. -/
theorem target_added_to_competitor_data (fetch : Fetcher)
    (company_name company_url : String) (competitors : List Candidate) (c : CompanyContent)
    (hc : scrape_company_comprehensive fetch company_url company_name =
      ScrapeResult.content c) :
    dictLookup (pipelineCompetitorData fetch company_name company_url competitors)
      company_name = some (ScrapeResult.content c) ∧
    company_name ∈
      analysisCompetitorNames (pipelineCompetitorData fetch company_name company_url
        competitors) ∧
    occursIn company_name.data
      (pyJoin ", " (analysisCompetitorNames (pipelineCompetitorData fetch company_name
        company_url competitors))).data ∧
    occursIn ("TARGET HOMEPAGE: " ++ pyReprHomepage c.homepage).data
      (prepare_competitive_content company_name (ScrapeResult.content c)
        (pipelineCompetitorData fetch company_name company_url competitors)).data ∧
    occursIn (company_name ++ ": " ++ pyReprScrapeResult (ScrapeResult.content c)
        ++ "\n\n").data
      (prepare_competitive_content company_name (ScrapeResult.content c)
        (pipelineCompetitorData fetch company_name company_url competitors)).data := by
  have hpair : (company_name, ScrapeResult.content c) ∈
      pipelineCompetitorData fetch company_name company_url competitors := by
    unfold pipelineCompetitorData
    rw [hc]
    exact mem_insert_pair _ _ _
  have hname : company_name ∈
      analysisCompetitorNames (pipelineCompetitorData fetch company_name company_url
        competitors) :=
    List.mem_map.mpr ⟨(company_name, ScrapeResult.content c), hpair, rfl⟩
  refine ⟨?_, hname, pyJoin_mem_occurs _ _ hname, ?_, ?_⟩
  · unfold pipelineCompetitorData
    rw [hc]
    exact dictLookup_insert_self _ _ _
  · exact (prepare_content_occurrences company_name c _).1
  · exact (prepare_content_occurrences company_name c _).2 company_name
      (ScrapeResult.content c) hpair

/-- Claim C10 witness: a concrete run on the all-500 network with no
competitors — the target's record is present under its own name and the
name list contains the target. -/
theorem target_added_to_competitor_data_witness :
    dictLookup (pipelineCompetitorData fetch500 "E" "https://e.com" []) "E" =
      some (ScrapeResult.content
        { homepage := { title := "", headline := "", subheadline := "", description := "",
                        features := [] }
          pricing := none
          features := none
          about := some { description := "", mission := "", team_info := "" } }) ∧
    "E" ∈ analysisCompetitorNames (pipelineCompetitorData fetch500 "E" "https://e.com" []) :=
  let h := target_added_to_competitor_data fetch500 "E" "https://e.com" []
    { homepage := { title := "", headline := "", subheadline := "", description := "",
                    features := [] }
      pricing := none
      features := none
      about := some { description := "", mission := "", team_info := "" } }
    (by decide)
  ⟨h.1, h.2.1⟩
